import Mathlib

/-
Verification of the authentication-mock core of `backend_common/testing.py`:
the fake Hawk credential codec (`build_header` / `parse_header`), the
Taskcluster MAC responder (`mock_auth_taskcluster`) and the auth0 userinfo
responder (`mock_auth_auth0`).

The Python code is shallowly embedded: Python `str` becomes `String`,
`bytes` becomes `List Nat` (each element a byte value), Python JSON values
become the inductive `Json` below, and a function that can raise becomes
`Option`/`Except`.  Nondeterministic inputs of the source (`time.time()`,
`random.randint`, `datetime.datetime.now()`) are explicit parameters.
Model restrictions (documented at the definitions): JSON floats
(`NaN`/`Infinity` included) are not modelled, `re` word characters are
modelled as ASCII word characters, and lone UTF-16 surrogates inside
Python strings are not representable.
-/

/-- Model of a Python JSON value as produced by `json.loads` / consumed by
`json.dumps`.  Numbers are restricted to integers: the repository only ever
builds and transports integer numbers, floats are out of scope. -/
inductive Json where
  | null : Json
  | bool (b : Bool) : Json
  | int (n : Int) : Json
  | str (s : String) : Json
  | arr (xs : List Json) : Json
  | obj (kvs : List (String × Json)) : Json

/-- Decimal digit to character, as Python formats numbers. -/
def digitChar (n : Nat) : Char := "0123456789".toList.getD n '0'

/-- Lowercase hexadecimal digit to character (`'%04x'` style formatting). -/
def hexDigitChar (n : Nat) : Char := "0123456789abcdef".toList.getD n '0'

/-- Fueled decimal printer for naturals, most significant digit first. -/
def natDigitsAux : Nat → Nat → List Char
  | 0, _ => []
  | f + 1, n => if n < 10 then [digitChar n] else natDigitsAux f (n / 10) ++ [digitChar (n % 10)]

/-- Characters of Python `str(n)` for a natural number. -/
def natChars (n : Nat) : List Char := natDigitsAux (n + 1) n

/-- Python `str(n)` for a natural number. -/
def natStr (n : Nat) : String := String.mk (natChars n)

/-- Characters of Python `str(n)` for an integer. -/
def intChars : Int → List Char
  | .ofNat n => natChars n
  | .negSucc n => '-' :: natChars (n + 1)

/-- Lowercase `'%04x'` formatting of a value below 0x10000, as used by
`json.dumps` for `\uXXXX` escapes. -/
def hex4 (n : Nat) : List Char :=
  [hexDigitChar (n / 4096 % 16), hexDigitChar (n / 256 % 16), hexDigitChar (n / 16 % 16),
    hexDigitChar (n % 16)]

/-- Escape sequence `json.dumps` (with its default `ensure_ascii=True`)
emits for one character: `"` and `\` get a backslash escape, the five
C-style control escapes are used for 0x08, 0x0c, 0x0a, 0x0d, 0x09, any
other character outside printable ASCII 0x20..0x7e becomes `\uXXXX`
(a surrogate pair for code points above 0xffff), and printable ASCII is
emitted literally. -/
def jsonEscSeq (c : Char) : List Char :=
  if c = '"' then ['\\', '"']
  else if c = '\\' then ['\\', '\\']
  else if c = '\x08' then ['\\', 'b']
  else if c = '\x0c' then ['\\', 'f']
  else if c = '\n' then ['\\', 'n']
  else if c = '\r' then ['\\', 'r']
  else if c = '\t' then ['\\', 't']
  else if c.toNat < 0x20 || 0x7e < c.toNat then
    if c.toNat < 0x10000 then '\\' :: 'u' :: hex4 c.toNat
    else
      '\\' :: 'u' :: hex4 (0xd800 + (c.toNat - 0x10000) / 1024) ++
        '\\' :: 'u' :: hex4 (0xdc00 + (c.toNat - 0x10000) % 1024)
  else [c]

/-- String-body escaping of `json.dumps`. -/
def escChars : List Char → List Char
  | [] => []
  | c :: cs => jsonEscSeq c ++ escChars cs

/-- Stable insertion of a key-value pair into a key-sorted pair list,
comparing keys with the code-point order Python `sorted` uses. -/
def keyInsert (kv : String × Json) : List (String × Json) → List (String × Json)
  | [] => [kv]
  | kv' :: rest => if kv'.1 < kv.1 then kv' :: keyInsert kv rest else kv :: kv' :: rest

/-- Stable sort of object members by key, modelling `sorted` as invoked by
`json.dumps(..., sort_keys=True)`. -/
def sortPairs : List (String × Json) → List (String × Json)
  | [] => []
  | kv :: rest => keyInsert kv (sortPairs rest)

mutual
/-- Recursively sorts every object's members by key.  `canon` is the
identity on the mapping contents, so it realises "mapping equality
independent of key order": two JSON trees are equal as mappings exactly
when their `canon` forms are equal. -/
def canon : Json → Json
  | .null => .null
  | .bool b => .bool b
  | .int n => .int n
  | .str s => .str s
  | .arr xs => .arr (canonList xs)
  | .obj kvs => .obj (sortPairs (canonObj kvs))
def canonList : List Json → List Json
  | [] => []
  | x :: xs => canon x :: canonList xs
def canonObj : List (String × Json) → List (String × Json)
  | [] => []
  | (k, v) :: kvs => (k, canon v) :: canonObj kvs
end

/-- Key lists of Python dicts have no duplicates. -/
def keysNodup : List String → Bool
  | [] => true
  | k :: ks => !(ks.contains k) && keysNodup ks

mutual
/-- Well-formedness of a `Json` value as the image of a Python object:
every object level has pairwise distinct keys (guaranteed for values that
come from Python dicts). -/
def jwf : Json → Bool
  | .null => true
  | .bool _ => true
  | .int _ => true
  | .str _ => true
  | .arr xs => jwfList xs
  | .obj kvs => keysNodup (kvs.map Prod.fst) && jwfObj kvs
def jwfList : List Json → Bool
  | [] => true
  | x :: xs => jwf x && jwfList xs
def jwfObj : List (String × Json) → Bool
  | [] => true
  | (_, v) :: kvs => jwf v && jwfObj kvs
end

mutual
/-- Serialisation of a JSON value with Python's default separators
`', '` and `': '` and `ensure_ascii=True`, in the stored member order
(no sorting; `json.dumps(..., sort_keys=True)` is modelled by serialising
the `canon` form). -/
def dumpsVal : Json → List Char
  | .null => "null".toList
  | .bool true => "true".toList
  | .bool false => "false".toList
  | .int n => intChars n
  | .str s => '"' :: escChars s.toList ++ ['"']
  | .arr [] => ['[', ']']
  | .arr (x :: xs) => '[' :: (dumpsVal x ++ dumpsArrTail xs) ++ [']']
  | .obj [] => ['{', '}']
  | .obj (kv :: kvs) => '{' :: (dumpsMember kv ++ dumpsObjTail kvs) ++ ['}']
def dumpsMember : String × Json → List Char
  | (k, v) => '"' :: escChars k.toList ++ '"' :: ':' :: ' ' :: dumpsVal v
def dumpsArrTail : List Json → List Char
  | [] => []
  | x :: xs => ',' :: ' ' :: dumpsVal x ++ dumpsArrTail xs
def dumpsObjTail : List (String × Json) → List Char
  | [] => []
  | kv :: kvs => ',' :: ' ' :: dumpsMember kv ++ dumpsObjTail kvs
end

/-- Model of `json.dumps(v)` (`sortKeys = false`) and of
`json.dumps(v, sort_keys=True)` (`sortKeys = true`). -/
def dumpsString (sortKeys : Bool) (v : Json) : String :=
  String.mk (dumpsVal (if sortKeys then canon v else v))

mutual
/-- Fuel lower bound for the JSON parser: number of parser calls needed to
consume a serialised value. -/
def jw : Json → Nat
  | .null => 1
  | .bool _ => 1
  | .int _ => 1
  | .str _ => 1
  | .arr xs => 1 + jwList xs
  | .obj kvs => 1 + jwObj kvs
def jwList : List Json → Nat
  | [] => 0
  | x :: xs => 1 + jw x + jwList xs
def jwObj : List (String × Json) → Nat
  | [] => 0
  | (_, v) :: kvs => 1 + jw v + jwObj kvs
end

/-- JSON whitespace, as skipped by Python's decoder. -/
def isJsonWs (c : Char) : Bool := c = ' ' || c = '\t' || c = '\n' || c = '\r'

/-- Value of a hexadecimal digit character (`int(_, 16)` accepts both
cases). -/
def hexVal (c : Char) : Option Nat :=
  if 48 ≤ c.toNat && c.toNat ≤ 57 then some (c.toNat - 48)
  else if 97 ≤ c.toNat && c.toNat ≤ 102 then some (c.toNat - 87)
  else if 65 ≤ c.toNat && c.toNat ≤ 70 then some (c.toNat - 55)
  else none

/-- String-literal scanner of the Python JSON decoder (strict mode): ends
at an unescaped `"`, rejects raw control characters below 0x20, handles
the named escapes and `\uXXXX` (combining a valid surrogate pair into one
code point; a lone surrogate, which Python would keep as a surrogate code
unit, is not representable in `Char` and is rejected — unreachable for
output of the serialiser, which only emits paired surrogates). -/
def parseStrAux : Nat → List Char → List Char → Option (String × List Char)
  | 0, _, _ => none
  | _ + 1, _, [] => none
  | f + 1, acc, c :: rest =>
    if c = '"' then some (String.mk acc.reverse, rest)
    else if c = '\\' then
      match rest with
      | [] => none
      | e :: r =>
        if e = '"' then parseStrAux f ('"' :: acc) r
        else if e = '\\' then parseStrAux f ('\\' :: acc) r
        else if e = '/' then parseStrAux f ('/' :: acc) r
        else if e = 'b' then parseStrAux f ('\x08' :: acc) r
        else if e = 'f' then parseStrAux f ('\x0c' :: acc) r
        else if e = 'n' then parseStrAux f ('\n' :: acc) r
        else if e = 'r' then parseStrAux f ('\r' :: acc) r
        else if e = 't' then parseStrAux f ('\t' :: acc) r
        else if e = 'u' then
          match r with
          | h1 :: h2 :: h3 :: h4 :: r2 =>
            match hexVal h1, hexVal h2, hexVal h3, hexVal h4 with
            | some a, some b, some c1, some d =>
              let n := ((a * 16 + b) * 16 + c1) * 16 + d
              if n < 0xd800 || 0xe000 ≤ n then parseStrAux f (Char.ofNat n :: acc) r2
              else if n < 0xdc00 then
                match r2 with
                | '\\' :: 'u' :: g1 :: g2 :: g3 :: g4 :: r3 =>
                  match hexVal g1, hexVal g2, hexVal g3, hexVal g4 with
                  | some a2, some b2, some c2, some d2 =>
                    let m := ((a2 * 16 + b2) * 16 + c2) * 16 + d2
                    if 0xdc00 ≤ m && m < 0xe000 then
                      parseStrAux f
                        (Char.ofNat (0x10000 + (n - 0xd800) * 1024 + (m - 0xdc00)) :: acc) r3
                    else none
                  | _, _, _, _ => none
                | _ => none
              else none
            | _, _, _, _ => none
          | _ => none
        else none
    else if c.toNat < 0x20 then none
    else parseStrAux f (c :: acc) rest

/-- ASCII decimal digit test (`\d` of the decimal number pattern). -/
def isDigitCh (c : Char) : Bool := 48 ≤ c.toNat && c.toNat ≤ 57

/-- Accumulates decimal digits left to right. -/
def digitsVal : List Char → Nat → Nat
  | [], acc => acc
  | c :: cs, acc => digitsVal cs (acc * 10 + (c.toNat - 48))

/-- Applies the sign read by `parseNum`. -/
def mkSigned (neg : Bool) (n : Nat) : Int := if neg then -(n : Int) else (n : Int)

/-- Unsigned part of the integer-literal scanner: `0` or a nonzero digit
run (Python\x27s `NUMBER_RE`).  A following `.`, `e` or `E` would make Python
produce a float, which this model does not cover, so such inputs are
rejected instead (json floats are outside the verified scope). -/
def parseNumTail (sign : Bool) : List Char → Option (Int × List Char)
  | [] => none
  | c :: rest =>
    if c = '0' then
      match rest with
      | r1 :: _ =>
        if isDigitCh r1 || r1 = '.' || r1 = 'e' || r1 = 'E' then
          if isDigitCh r1 then some ((0 : Int), rest) else none
        else some ((0 : Int), rest)
      | [] => some ((0 : Int), rest)
    else if isDigitCh c then
      let ds := rest.takeWhile isDigitCh
      let r2 := rest.dropWhile isDigitCh
      match r2 with
      | e1 :: _ =>
        if e1 = '.' || e1 = 'e' || e1 = 'E' then none
        else some (mkSigned sign (digitsVal (c :: ds) 0), r2)
      | [] => some (mkSigned sign (digitsVal (c :: ds) 0), r2)
    else none

/-- Integer-literal scanner: optional `-`, then the unsigned digit part. -/
def parseNum : List Char → Option (Int × List Char)
  | [] => parseNumTail false []
  | c :: r => if c = '-' then parseNumTail true r else parseNumTail false (c :: r)

/-- In-place dict insertion: Python `dict` assignment keeps the position of
the first occurrence of a key and overwrites its value. -/
def objInsert (kvs : List (String × Json)) (k : String) (v : Json) : List (String × Json) :=
  match kvs with
  | [] => [(k, v)]
  | (k', v') :: rest => if k' == k then (k', v) :: rest else (k', v') :: objInsert rest k v

/-- Builds the dict for a parsed JSON object from its member list, as
`dict(pairs)` does in the Python decoder (later duplicate keys win). -/
def dictAssemble (pairs : List (String × Json)) : List (String × Json) :=
  pairs.foldl (fun acc kv => objInsert acc kv.1 kv.2) []

mutual
/-- Fueled recursive-descent JSON value scanner mirroring Python's
decoder: dispatch on the first character; whitespace inside containers is
skipped where the Python scanner skips it. -/
def parseVal : Nat → List Char → Option (Json × List Char)
  | 0, _ => none
  | _ + 1, [] => none
  | f + 1, c :: r =>
    if c = 'n' then
      match r with
      | 'u' :: 'l' :: 'l' :: r2 => some (.null, r2)
      | _ => none
    else if c = 't' then
      match r with
      | 'r' :: 'u' :: 'e' :: r2 => some (.bool true, r2)
      | _ => none
    else if c = 'f' then
      match r with
      | 'a' :: 'l' :: 's' :: 'e' :: r2 => some (.bool false, r2)
      | _ => none
    else if c = '"' then
      match parseStrAux (r.length + 1) [] r with
      | some (s, r2) => some (.str s, r2)
      | none => none
    else if c = '[' then
      match r.dropWhile isJsonWs with
      | [] => none
      | c1 :: r1 =>
        if c1 = ']' then some (.arr [], r1)
        else
          match parseItems f (c1 :: r1) with
          | some (xs, r2) => some (.arr xs, r2)
          | none => none
    else if c = '{' then
      match r.dropWhile isJsonWs with
      | [] => none
      | c1 :: r1 =>
        if c1 = '}' then some (.obj [], r1)
        else
          match parseMembers f (c1 :: r1) with
          | some (kvs, r2) => some (.obj (dictAssemble kvs), r2)
          | none => none
    else
      match parseNum (c :: r) with
      | some (n, r2) => some (.int n, r2)
      | none => none
/-- Comma-separated array items up to the closing `]`. -/
def parseItems : Nat → List Char → Option (List Json × List Char)
  | 0, _ => none
  | f + 1, l =>
    match parseVal f l with
    | none => none
    | some (v, r1) =>
      match r1.dropWhile isJsonWs with
      | [] => none
      | c :: r2 =>
        if c = ',' then
          match parseItems f (r2.dropWhile isJsonWs) with
          | some (vs, r3) => some (v :: vs, r3)
          | none => none
        else if c = ']' then some ([v], r2)
        else none
/-- Comma-separated `"key": value` members up to the closing `}`. -/
def parseMembers : Nat → List Char → Option (List (String × Json) × List Char)
  | 0, _ => none
  | f + 1, l =>
    match l with
    | '"' :: r =>
      match parseStrAux (r.length + 1) [] r with
      | none => none
      | some (k, r1) =>
        match r1.dropWhile isJsonWs with
        | [] => none
        | c0 :: r2 =>
          if c0 = ':' then
            match parseVal f (r2.dropWhile isJsonWs) with
            | none => none
            | some (v, r3) =>
              match r3.dropWhile isJsonWs with
              | [] => none
              | c :: r4 =>
                if c = ',' then
                  match parseMembers f (r4.dropWhile isJsonWs) with
                  | some (kvs, r5) => some ((k, v) :: kvs, r5)
                  | none => none
                else if c = '}' then some ([(k, v)], r4)
                else none
          else none
    | _ => none
end

/-- Model of `json.loads`: skip leading whitespace, scan one value, then
only whitespace may remain ("Extra data" otherwise). -/
def json_loads (s : String) : Option Json :=
  let l := s.toList.dropWhile isJsonWs
  match parseVal (l.length + 1) l with
  | some (v, rest) => if (rest.dropWhile isJsonWs).isEmpty then some v else none
  | none => none

/-- Standard base64 alphabet. -/
def b64Alphabet : List Char :=
  "ABCDEFGHIJKLMNOPQRSTUVWXYZabcdefghijklmnopqrstuvwxyz0123456789+/".toList

/-- Character for a 6-bit group. -/
def b64Char (n : Nat) : Char := b64Alphabet.getD n 'A'

/-- Model of `base64.b64encode` on a byte list (result as characters). -/
def b64encode : List Nat → List Char
  | b1 :: b2 :: b3 :: rest =>
    b64Char (b1 / 4) :: b64Char (b1 % 4 * 16 + b2 / 16) :: b64Char (b2 % 16 * 4 + b3 / 64) ::
      b64Char (b3 % 64) :: b64encode rest
  | [b1, b2] => [b64Char (b1 / 4), b64Char (b1 % 4 * 16 + b2 / 16), b64Char (b2 % 16 * 4), '=']
  | [b1] => [b64Char (b1 / 4), b64Char (b1 % 4 * 16), '=', '=']
  | [] => []

/-- Value of a base64 alphabet character. -/
def b64CharVal (c : Char) : Option Nat :=
  if 65 ≤ c.toNat && c.toNat ≤ 90 then some (c.toNat - 65)
  else if 97 ≤ c.toNat && c.toNat ≤ 122 then some (c.toNat - 71)
  else if 48 ≤ c.toNat && c.toNat ≤ 57 then some (c.toNat + 4)
  else if c = '+' then some 62
  else if c = '/' then some 63
  else none

/-- Decoding loop of CPython's `binascii.a2b_base64` in its default
non-strict mode: characters outside the alphabet are discarded, `=` before
two data characters of a group is ignored, enough padding after two or
three data characters finishes decoding (later input is discarded), and a
leftover partial group at the end is an error.  Arguments: input,
accumulated bit value of the current group, number of characters in the
current group, padding characters seen, output bytes. -/
def a2bLoop : List Char → Nat → Nat → Nat → List Nat → Option (List Nat)
  | [], _, qp, _, out => if qp = 0 then some out else none
  | c :: rest, acc, qp, pads, out =>
    if c = '=' then
      if 2 ≤ qp then
        if 4 ≤ qp + pads + 1 then
          some (out ++ (if qp = 2 then [acc / 16] else [acc / 1024, acc / 4 % 256]))
        else a2bLoop rest acc qp (pads + 1) out
      else a2bLoop rest acc qp pads out
    else
      match b64CharVal c with
      | some v =>
        if qp = 3 then
          a2bLoop rest 0 0 0
            (out ++ [(acc * 64 + v) / 65536, (acc * 64 + v) / 256 % 256, (acc * 64 + v) % 256])
        else a2bLoop rest (acc * 64 + v) (qp + 1) 0 out
      | none => a2bLoop rest acc qp pads out

/-- Model of `base64.b64decode` (default non-strict validation). -/
def b64decodeChars (l : List Char) : Option (List Nat) := a2bLoop l 0 0 0 []

/-- UTF-8 encoding of one code point. -/
def utf8EncodeChar (c : Char) : List Nat :=
  let n := c.toNat
  if n < 0x80 then [n]
  else if n < 0x800 then [0xc0 + n / 64, 0x80 + n % 64]
  else if n < 0x10000 then [0xe0 + n / 4096, 0x80 + n / 64 % 64, 0x80 + n % 64]
  else [0xf0 + n / 262144, 0x80 + n / 4096 % 64, 0x80 + n / 64 % 64, 0x80 + n % 64]

/-- Model of `str.encode('utf-8')` at character level. -/
def utf8Encode : List Char → List Nat
  | [] => []
  | c :: cs => utf8EncodeChar c ++ utf8Encode cs

/-- Checks a UTF-8 continuation byte. -/
def isCont (b : Nat) : Bool := 0x80 ≤ b && b < 0xc0

/-- Model of `bytes.decode('utf-8')` (strict): standard UTF-8 decoding,
rejecting overlong forms, surrogates and out-of-range code points. -/
def utf8DecodeAux : Nat → List Nat → Option (List Char)
  | 0, _ => none
  | _ + 1, [] => some []
  | f + 1, b1 :: rest =>
    if b1 < 0x80 then
      match utf8DecodeAux f rest with
      | some cs => some (Char.ofNat b1 :: cs)
      | none => none
    else if 0xc2 ≤ b1 && b1 < 0xe0 then
      match rest with
      | b2 :: r2 =>
        if isCont b2 then
          match utf8DecodeAux f r2 with
          | some cs => some (Char.ofNat ((b1 - 0xc0) * 64 + (b2 - 0x80)) :: cs)
          | none => none
        else none
      | [] => none
    else if 0xe0 ≤ b1 && b1 < 0xf0 then
      match rest with
      | b2 :: b3 :: r2 =>
        if isCont b2 && isCont b3 then
          let n := (b1 - 0xe0) * 4096 + (b2 - 0x80) * 64 + (b3 - 0x80)
          if 0x800 ≤ n && (n < 0xd800 || 0xe000 ≤ n) then
            match utf8DecodeAux f r2 with
            | some cs => some (Char.ofNat n :: cs)
            | none => none
          else none
        else none
      | _ => none
    else if 0xf0 ≤ b1 && b1 < 0xf5 then
      match rest with
      | b2 :: b3 :: b4 :: r2 =>
        if isCont b2 && isCont b3 && isCont b4 then
          let n := (b1 - 0xf0) * 262144 + (b2 - 0x80) * 4096 + (b3 - 0x80) * 64 + (b4 - 0x80)
          if 0x10000 ≤ n && n ≤ 0x10ffff then
            match utf8DecodeAux f r2 with
            | some cs => some (Char.ofNat n :: cs)
            | none => none
          else none
        else none
      | _ => none
    else none

/-- Model of `bytes.decode('utf-8')` producing a string. -/
def utf8DecodeStr (bs : List Nat) : Option String :=
  match utf8DecodeAux (bs.length + 1) bs with
  | some cs => some (String.mk cs)
  | none => none

/-- 32-bit left rotation. -/
def rotl32 (k x : Nat) : Nat := (x * 2 ^ k + x / 2 ^ (32 - k)) % 4294967296

/-- Big-endian bytes of a value, fixed width. -/
def beBytes : Nat → Nat → List Nat
  | 0, _ => []
  | k + 1, n => beBytes k (n / 256) ++ [n % 256]

/-- SHA-1 message padding: append 0x80, zeros to 56 mod 64, then the
64-bit big-endian bit length. -/
def sha1pad (msg : List Nat) : List Nat :=
  msg ++ 0x80 :: List.replicate ((55 + 64 - msg.length % 64) % 64) 0 ++ beBytes 8 (msg.length * 8)

/-- Big-endian 32-bit words of a chunk. -/
def toWords : List Nat → List Nat
  | b1 :: b2 :: b3 :: b4 :: rest => (b1 * 16777216 + b2 * 65536 + b3 * 256 + b4) :: toWords rest
  | _ => []

/-- SHA-1 message-schedule extension; the word list is kept newest first. -/
def sha1Extend : Nat → List Nat → List Nat
  | 0, ws => ws
  | k + 1, ws =>
    sha1Extend k (rotl32 1 (ws.getD 2 0 ^^^ ws.getD 7 0 ^^^ ws.getD 13 0 ^^^ ws.getD 15 0) :: ws)

/-- SHA-1 compression rounds over the 80 schedule words. -/
def sha1RoundLoop : Nat → List Nat → Nat → Nat → Nat → Nat → Nat → Nat × Nat × Nat × Nat × Nat
  | _, [], a, b, c, d, e => (a, b, c, d, e)
  | i, w :: ws, a, b, c, d, e =>
    let f :=
      if i < 20 then b &&& c ||| (4294967295 - b) &&& d
      else if i < 40 then b ^^^ c ^^^ d
      else if i < 60 then b &&& c ||| b &&& d ||| c &&& d
      else b ^^^ c ^^^ d
    let k :=
      if i < 20 then 0x5a827999
      else if i < 40 then 0x6ed9eba1
      else if i < 60 then 0x8f1bbcdc
      else 0xca62c1d6
    sha1RoundLoop (i + 1) ws ((rotl32 5 a + f + e + k + w) % 4294967296) a (rotl32 30 b) c d

/-- Processes the 64-byte chunks of a padded message. -/
def sha1Chunks : Nat → List Nat → Nat × Nat × Nat × Nat × Nat → Nat × Nat × Nat × Nat × Nat
  | 0, _, h => h
  | fuel + 1, bytes, (h0, h1, h2, h3, h4) =>
    match bytes with
    | [] => (h0, h1, h2, h3, h4)
    | _ :: _ =>
      let ws := (sha1Extend 64 (toWords (bytes.take 64)).reverse).reverse
      let r := sha1RoundLoop 0 ws h0 h1 h2 h3 h4
      sha1Chunks fuel (bytes.drop 64)
        ((h0 + r.1) % 4294967296, (h1 + r.2.1) % 4294967296, (h2 + r.2.2.1) % 4294967296,
          (h3 + r.2.2.2.1) % 4294967296, (h4 + r.2.2.2.2) % 4294967296)

/-- SHA-1 digest bytes of a message. -/
def sha1Bytes (msg : List Nat) : List Nat :=
  let p := sha1pad msg
  let h := sha1Chunks (p.length / 64 + 1) p (0x67452301, 0xefcdab89, 0x98badcfe, 0x10325476, 0xc3d2e1f0)
  beBytes 4 h.1 ++ beBytes 4 h.2.1 ++ beBytes 4 h.2.2.1 ++ beBytes 4 h.2.2.2.1 ++ beBytes 4 h.2.2.2.2

/-- Lowercase hexadecimal rendering of bytes. -/
def hexBytes : List Nat → List Char
  | [] => []
  | b :: bs => hexDigitChar (b / 16 % 16) :: hexDigitChar (b % 16) :: hexBytes bs

/-- Model of `hashlib.sha1(_).hexdigest()`. -/
def sha1hex (msg : List Nat) : String := String.mk (hexBytes (sha1Bytes msg))

/-- Characters matched by `\w` in the header regex.  The Python pattern is
Unicode-aware; the model restricts to ASCII word characters, which covers
every string the repository produces or tests. -/
def isWordChar (c : Char) : Bool :=
  97 ≤ c.toNat && c.toNat ≤ 122 || 65 ≤ c.toNat && c.toNat ≤ 90 ||
    48 ≤ c.toNat && c.toNat ≤ 57 || c = '_'

/-- Characters permitted in a quoted header value by the pattern
`[\w=\.\@\-_/]` of `parse_header`. -/
def isValueChar (c : Char) : Bool :=
  isWordChar c || c = '=' || c = '.' || c = '@' || c = '-' || c = '/'

/-- One attempt of the pattern `(\w+)="([\w=\.\@\-_/]+)"` at the current
position: a nonempty maximal word-character run, then `="`, then a
nonempty maximal value-character run, then `"`.  Because `=` is not a word
character and `"` is not a value character, the greedy runs cannot
backtrack, so this is exactly the regex engine's behaviour. -/
def tryMatch (l : List Char) : Option ((String × String) × List Char) :=
  let k := l.takeWhile isWordChar
  if k.isEmpty then none
  else
    match l.dropWhile isWordChar with
    | c1 :: c2 :: r2 =>
      if c1 = '=' && c2 = '"' then
        let v := r2.takeWhile isValueChar
        if v.isEmpty then none
        else
          match r2.dropWhile isValueChar with
          | c3 :: rest => if c3 = '"' then some ((String.mk k, String.mk v), rest) else none
          | [] => none
      else none
    | _ => none

/-- Fueled model of `re.findall` for the header pattern: leftmost
non-overlapping matches, resuming after each match, advancing one
character after a failed attempt.  Any fuel of at least the input length
gives the regex semantics. -/
def findallKV : Nat → List Char → List (String × String)
  | 0, _ => []
  | _ + 1, [] => []
  | f + 1, c :: rest =>
    match tryMatch (c :: rest) with
    | some (kv, rest2) => kv :: findallKV f rest2
    | none => findallKV f rest

/-- Model of `re.findall(r'(\w+)="([\w=\.\@\-_/]+)"', _)`: the fuel equal
to the input length always suffices, since every step consumes at least
one character. -/
def findAll (l : List Char) : List (String × String) := findallKV l.length l

/-- Lookup in the dict built by Python's `dict(pairs)`: the value of the
last pair with the key. -/
def lastLookup : List (String × String) → String → Option String
  | [], _ => none
  | (k', v) :: rest, k =>
    match lastLookup rest k with
    | some r => some r
    | none => if k' == k then some v else none

/-- Model of `str.startswith('Hawk ')`. -/
def startsWithHawk (l : List Char) : Bool := List.isPrefixOf "Hawk ".toList l

/-- Decode chain applied to the captured `ext` value:
`json.loads(base64.b64decode(ext).decode('utf-8'))`. -/
def extChain (s : String) : Option Json :=
  match b64decodeChars s.toList with
  | none => none
  | some bytes =>
    match utf8DecodeStr bytes with
    | none => none
    | some txt => json_loads txt

/-- Model of `parse_header`: requires the `Hawk ` prefix, scans
`key="value"` pairs with the regex model, requires the four mandatory
parts in the source's check order, swallows every failure of the `ext`
decode chain (including a missing `ext`) into an empty mapping, and
returns the client id with the extension data.  Errors carry the
`str(e)` text of the raised exception.  The source's `if parts is None`
branch is dead code (`re.findall` never returns `None`) and has no
counterpart here.  The digest in `mac` is never inspected beyond presence
(the source's `# TODO: check mac`). -/
def parse_header (header : String) : Except String (String × Json) :=
  let l := header.toList
  if startsWithHawk l then
    let parts := findAll l
    if (lastLookup parts "id").isNone then .error "Missing header part id"
    else if (lastLookup parts "mac").isNone then .error "Missing header part mac"
    else if (lastLookup parts "ts").isNone then .error "Missing header part ts"
    else if (lastLookup parts "nonce").isNone then .error "Missing header part nonce"
    else
      let ext_data := match lastLookup parts "ext" with
        | none => Json.obj []
        | some s =>
          match extChain s with
          | none => Json.obj []
          | some j => j
      .ok ((lastLookup parts "id").getD "", ext_data)
  else .error "Missing Hawk prefix"

/-- Characters of one `key="value"` fragment of the header. -/
def hdrPairChars (kv : String × String) : List Char :=
  kv.1.toList ++ '=' :: '"' :: kv.2.toList ++ ['"']

/-- Model of `', '.join` over the rendered fragments. -/
def hdrJoin : List (String × String) → List Char
  | [] => []
  | [kv] => hdrPairChars kv
  | kv :: rest => hdrPairChars kv ++ ',' :: ' ' :: hdrJoin rest

/-- Model of `'Hawk {}'.format(', '.join(parts))`. -/
def renderHeader (ps : List (String × String)) : String :=
  String.mk ('H' :: 'a' :: 'w' :: 'k' :: ' ' :: hdrJoin ps)

/-- Model of `'\n'.join`. -/
def joinNewline : List String → String
  | [] => ""
  | [s] => s
  | s :: rest => s ++ "\n" ++ joinNewline rest

/-- Model of `build_header(client_id, ext_data)`.  The source draws `ts`
from `time.time()` and `nonce` from `random.randint(0, 100000)`; both are
nonnegative integers and appear here as explicit `Nat` parameters.  The
`ext` value is `base64.b64encode(json.dumps(ext_data, sort_keys=True)
.encode('utf-8'))`, the digest is SHA-1 over the newline-joined string
values in insertion order, and the header renders the ordered dict as
`Hawk k="v", ...`. -/
def build_header (client_id : String) (ts nonce : Nat) (ext_data : Option Json) : String :=
  let base := [("id", client_id), ("ts", natStr ts), ("nonce", natStr nonce)]
  let out := match ext_data with
    | none => base
    | some e => base ++ [("ext", String.mk (b64encode (utf8Encode (dumpsVal (canon e)))))]
  let mac := sha1hex (utf8Encode (joinNewline (out.map Prod.snd)).toList)
  renderHeader (out ++ [("mac", mac)])

/-- Python type name of a JSON value, as it appears in `TypeError` and
`AttributeError` texts. -/
def pyTypeName : Json → String
  | .null => "NoneType"
  | .bool _ => "bool"
  | .int _ => "int"
  | .str _ => "str"
  | .arr _ => "list"
  | .obj _ => "dict"

/-- First-match lookup in a JSON object (objects produced by `json_loads`
have unique keys). -/
def jsonLookup : List (String × Json) → String → Option Json
  | [], _ => none
  | (k', v) :: rest, k => if k' == k then some v else jsonLookup rest k

/-- Substring test, modelling Python `needle in haystack` on strings. -/
def substringCheck (needle : List Char) : List Char → Bool
  | [] => needle.isEmpty
  | c :: rest => List.isPrefixOf needle (c :: rest) || substringCheck needle rest

/-- Model of the Python expression `k in payload` for a JSON payload:
key membership for dicts, substring test for strings, element equality
for lists, and a `TypeError` for the non-iterable types. -/
def pyContains (payload : Json) (k : String) : Except String Bool :=
  match payload with
  | .obj kvs => .ok (jsonLookup kvs k).isSome
  | .str s => .ok (substringCheck k.toList s.toList)
  | .arr xs =>
    .ok (xs.any fun j => match j with
      | .str s => s == k
      | _ => false)
  | other => .error ("argument of type \x27" ++ pyTypeName other ++ "\x27 is not iterable")

/-- Model of the Python expression `payload[k]` with a string key. -/
def pyGetItemStr (payload : Json) (k : String) : Except String Json :=
  match payload with
  | .obj kvs =>
    match jsonLookup kvs k with
    | some v => .ok v
    | none => .error ("\x27" ++ k ++ "\x27")
  | .str _ => .error "string indices must be integers"
  | .arr _ => .error "list indices must be integers or slices, not str"
  | other => .error ("\x27" ++ pyTypeName other ++ "\x27 object is not subscriptable")

/-- Naive Gregorian datetime, the fields `datetime.datetime.now()` exposes
to `strftime('%Y-%m-%dT%H:%M:%S')` (sub-second precision is dropped by
that format and not modelled). -/
structure PyDateTime where
  year : Nat
  month : Nat
  day : Nat
  hour : Nat
  minute : Nat
  second : Nat

/-- Gregorian leap-year rule. -/
def isLeapYear (y : Nat) : Bool := (y % 4 == 0 && y % 100 != 0) || y % 400 == 0

/-- Days in a month. -/
def daysInMonth (y m : Nat) : Nat :=
  if m == 2 then (if isLeapYear y then 29 else 28)
  else if m == 4 || m == 6 || m == 9 || m == 11 then 30
  else 31

/-- Model of `d + datetime.timedelta(days=1)` on a naive datetime: the
calendar advances one day, the time of day is unchanged. -/
def nextDay (d : PyDateTime) : PyDateTime :=
  if d.day < daysInMonth d.year d.month then
    ⟨d.year, d.month, d.day + 1, d.hour, d.minute, d.second⟩
  else if d.month < 12 then ⟨d.year, d.month + 1, 1, d.hour, d.minute, d.second⟩
  else ⟨d.year + 1, 1, 1, d.hour, d.minute, d.second⟩

/-- Zero-padded two-digit field. -/
def pad2 (n : Nat) : String := if n < 10 then "0" ++ natStr n else natStr n

/-- Zero-padded four-digit year. -/
def pad4 (n : Nat) : String :=
  if n < 10 then "000" ++ natStr n
  else if n < 100 then "00" ++ natStr n
  else if n < 1000 then "0" ++ natStr n
  else natStr n

/-- Model of `strftime('%Y-%m-%dT%H:%M:%S')`: no timezone offset, no
fractional seconds. -/
def strftimeYmdHMS (d : PyDateTime) : String :=
  pad4 d.year ++ "-" ++ pad2 d.month ++ "-" ++ pad2 d.day ++ "T" ++ pad2 d.hour ++ ":" ++
    pad2 d.minute ++ ":" ++ pad2 d.second

/-- The `try` block of `mock_auth_taskcluster` after the body has been
parsed: every Python exception raised inside it is an `Except.error`
carrying `str(e)`, and the success value is the member list of the JSON
success body in the source's insertion order. -/
def taskclusterAttempt (now : PyDateTime) (payload : Json) :
    Except String (List (String × Json)) :=
  match pyContains payload "authorization" with
  | .error e => .error e
  | .ok has =>
    if !has then .error "Missing authorization"
    else
      match pyGetItemStr payload "authorization" with
      | .error e => .error e
      | .ok authVal =>
        match authVal with
        | .str hdr =>
          match parse_header hdr with
          | .error e => .error e
          | .ok r =>
            match r.2 with
            | .obj kvs =>
              .ok [("status", Json.str "auth-success"),
                ("scopes", (jsonLookup kvs "scopes").getD (Json.arr [])),
                ("scheme", Json.str "hawk"), ("clientId", Json.str r.1),
                ("expires", Json.str (strftimeYmdHMS (nextDay now)))]
            | v => .error ("\x27" ++ pyTypeName v ++ "\x27 object has no attribute \x27get\x27")
        | v => .error ("\x27" ++ pyTypeName v ++ "\x27 object has no attribute \x27startswith\x27")

/-- Model of `mock_auth_taskcluster(request)`.  `request.body` is the
`reqBody` string and `datetime.datetime.now()` is the `now` parameter.
`json.loads(request.body)` runs before the `try` block, so a body that is
not valid JSON raises out of the responder: that case is `none` (no
response).  Otherwise the responder returns status 200 with the success
body or 401 with the failure body, both with an `application/json`
content type. -/
def mock_auth_taskcluster (now : PyDateTime) (reqBody : String) :
    Option (Nat × List (String × String) × String) :=
  match json_loads reqBody with
  | none => none
  | some payload =>
    match taskclusterAttempt now payload with
    | .ok body => some (200, [("Content-Type", "application/json")], dumpsString false (Json.obj body))
    | .error e =>
      some (401, [("Content-Type", "application/json")],
        dumpsString false (Json.obj [("status", Json.str "auth-failure"), ("message", Json.str e)]))

/-- Model of Python `str.split(sep)` with a one-character separator:
splits at every occurrence, keeping empty segments (so the empty string
yields one empty segment). -/
def splitChar (sep : Char) : List Char → List (List Char)
  | [] => [[]]
  | c :: rest =>
    match splitChar sep rest with
    | [] => [[c]]
    | h :: t => if c = sep then [] :: h :: t else (c :: h) :: t

/-- In-place dict insertion for string values (same Python `dict`
semantics as `objInsert`). -/
def queryInsert (d : List (String × String)) (k v : String) : List (String × String) :=
  match d with
  | [] => [(k, v)]
  | (k', v') :: rest => if k' == k then (k', v) :: rest else (k', v') :: queryInsert rest k v

/-- Builds the dict of the comprehension
`{p.split('=')[0]: p.split('=')[1] for p in query.split('&')}`: for each
`&`-segment the key is the part before the first `=` and the value is the
part between the first and second `=`; a segment with no `=` raises
`IndexError` (`none`). -/
def queryFold : List (List Char) → List (String × String) → Option (List (String × String))
  | [], acc => some acc
  | p :: rest, acc =>
    match splitChar '=' p with
    | s0 :: s1 :: _ => queryFold rest (queryInsert acc (String.mk s0) (String.mk s1))
    | _ => none

/-- Query-string parsing of `mock_auth_auth0`. -/
def parseQuery (q : String) : Option (List (String × String)) :=
  queryFold (splitChar '&' q.toList) []

/-- Model of `dict.get(k, default)` (keys are unique by construction). -/
def queryGet (d : List (String × String)) (k dflt : String) : String :=
  match d with
  | [] => dflt
  | (k', v) :: rest => if k' == k then v else queryGet rest k dflt

/-- The fixed identity record returned for every authorized userinfo
request, transcribed member for member in source order. -/
def AUTH0_DUMMY_USERINFO : Json :=
  Json.obj
    [("family_name", Json.str "Moran"), ("given_name", Json.str "Lydia"),
      ("nickname", Json.str "Lydia Moran"),
      ("groups",
        Json.arr
          [Json.str "avengers", Json.str "JusticeLeague", Json.str "x_men",
            Json.str "the_specials", Json.str "fantastic4"]),
      ("emails", Json.arr [Json.str "lmoran@mozilla.com"]),
      ("dn", Json.str "mail=lmoran@mozilla.com,o=com,dc=mozilla"),
      ("organizationUnits", Json.str "mail=lmoran@mozilla.com,o=com,dc=mozilla"),
      ("email", Json.str "lmoran@mozilla.com"), ("name", Json.str "Lydia Moran"),
      ("picture",
        Json.str "http://people.mozilla.com/~faaborg/files/shiretoko/firefoxIcon/firefox-128.png"),
      ("email_verified", Json.bool true),
      ("clientID", Json.str "abcdefghijklmnopqrstuvwxyz123456"),
      ("updated_at", Json.str "2017-04-25T09:36:57.950Z"),
      ("user_id", Json.str "ad|Mozilla-LDAP|lmoran"),
      ("identities",
        Json.arr
          [Json.obj
            [("user_id", Json.str "Mozilla-LDAP|lmoran"), ("provider", Json.str "ad"),
              ("connection", Json.str "Mozilla-LDAP"), ("isSocial", Json.bool false)]]),
      ("created_at", Json.str "2017-03-07T10:14:51.077Z"),
      ("multifactor", Json.arr [Json.str "duo"]),
      ("sub", Json.str "ad|Mozilla-LDAP|lmoran")]

/-- Model of `mock_auth_auth0(request)`.  The `query` parameter is
`urllib.parse.urlparse(request.url).query`.  A query segment without `=`
raises `IndexError` out of the responder (`none`).  Otherwise: a missing
`access_token` parameter defaults to the sentinel `"badtoken"`, the
sentinel yields the plain-text `Unauthorized` body, anything else yields
the fixed identity record as JSON, and the status is always 200. -/
def mock_auth_auth0 (query : String) : Option (Nat × List (String × String) × String) :=
  match parseQuery query with
  | none => none
  | some q =>
    if queryGet q "access_token" "badtoken" == "badtoken" then
      some (200, [("Content-Type", "text/plain")], "Unauthorized")
    else some (200, [("Content-Type", "application/json")], dumpsString false AUTH0_DUMMY_USERINFO)

/-- Well-formedness of one header pair for the regex round-trip: nonempty
word-character key, nonempty value-character value. -/
def wfPair (kv : String × String) : Prop :=
  kv.1.toList ≠ [] ∧ (∀ a ∈ kv.1.toList, isWordChar a = true) ∧ kv.2.toList ≠ [] ∧
    ∀ a ∈ kv.2.toList, isValueChar a = true

/-- Characters that may legally follow a serialised value inside a JSON
document (separator position). -/
def sepOk (rest : List Char) : Prop :=
  rest = [] ∨ ∃ c cs, rest = c :: cs ∧ (c = ',' ∨ c = ']' ∨ c = '}')

set_option maxRecDepth 4000

/-! ### Structural induction over JSON values -/

/-- Induction principle for the nested inductive `Json`. -/
theorem jsonInd (P : Json → Prop) (h1 : P .null) (h2 : ∀ b, P (.bool b))
    (h3 : ∀ n, P (.int n)) (h4 : ∀ s, P (.str s))
    (h5 : ∀ xs, (∀ x ∈ xs, P x) → P (.arr xs))
    (h6 : ∀ kvs, (∀ kv ∈ kvs, P kv.2) → P (.obj kvs)) : ∀ v, P v
  | .null => h1
  | .bool b => h2 b
  | .int n => h3 n
  | .str s => h4 s
  | .arr xs => h5 xs (fun x hx => jsonInd P h1 h2 h3 h4 h5 h6 x)
  | .obj kvs => h6 kvs (fun kv hkv => jsonInd P h1 h2 h3 h4 h5 h6 kv.2)
termination_by v => sizeOf v
decreasing_by
  · have := List.sizeOf_lt_of_mem hx
    simp only [Json.arr.sizeOf_spec]
    omega
  · have ha := List.sizeOf_lt_of_mem hkv
    have hb : sizeOf kv.2 < sizeOf kv := by
      obtain ⟨a, b⟩ := kv
      simp only [Prod.mk.sizeOf_spec]
      omega
    simp only [Json.obj.sizeOf_spec]
    omega

/-! ### Character-class facts -/

theorem digitChar_toNat (m : Nat) (h : m < 10) : (digitChar m).toNat = 48 + m := by
  interval_cases m <;> rfl

theorem isDigitCh_digitChar (m : Nat) : isDigitCh (digitChar m) = true := by
  rcases Nat.lt_or_ge m 10 with h | h
  · interval_cases m <;> rfl
  · have : digitChar m = '0' := by
      unfold digitChar
      apply List.getD_eq_default
      simpa using h
    rw [this]; rfl

theorem isWordChar_of_digit (c : Char) (h : isDigitCh c = true) : isWordChar c = true := by
  unfold isDigitCh at h
  unfold isWordChar
  simp only [Bool.and_eq_true, decide_eq_true_eq, Bool.or_eq_true] at *
  omega

theorem isValueChar_of_word (c : Char) (h : isWordChar c = true) : isValueChar c = true := by
  unfold isValueChar
  rw [h]
  rfl

theorem hexDigitChar_hexVal (m : Nat) (h : m < 16) : hexVal (hexDigitChar m) = some m := by
  interval_cases m <;> rfl

theorem isValueChar_hexDigitChar (m : Nat) : isValueChar (hexDigitChar m) = true := by
  rcases Nat.lt_or_ge m 16 with h | h
  · interval_cases m <;> rfl
  · have : hexDigitChar m = '0' := by
      unfold hexDigitChar
      apply List.getD_eq_default
      simpa using h
    rw [this]; rfl

theorem isDigitCh_not_ws (c : Char) (h : isDigitCh c = true) : isJsonWs c = false := by
  unfold isDigitCh at h
  unfold isJsonWs
  simp only [Bool.and_eq_true, decide_eq_true_eq] at h
  simp only [Bool.or_eq_false_iff, decide_eq_false_iff_not]
  refine ⟨⟨⟨?_, ?_⟩, ?_⟩, ?_⟩ <;> intro hc <;> subst hc <;> revert h <;> decide

/-! ### takeWhile / dropWhile splitting -/

theorem takeWhile_all_append (p : Char → Bool) (w : List Char) (c : Char) (l : List Char)
    (hw : ∀ a ∈ w, p a = true) (hc : p c = false) :
    (w ++ c :: l).takeWhile p = w ∧ (w ++ c :: l).dropWhile p = c :: l := by
  induction w with
  | nil => simp [List.takeWhile_cons, List.dropWhile_cons, hc]
  | cons a w ih =>
    have ha : p a = true := hw a (by simp)
    have ih' := ih (fun b hb => hw b (by simp [hb]))
    simp [List.takeWhile_cons, List.dropWhile_cons, ha, ih'.1, ih'.2]

/-! ### findallKV fuel irrelevance -/

theorem tryMatch_rest_length {l : List Char} {kv : String × String} {rest : List Char}
    (h : tryMatch l = some (kv, rest)) : rest.length < l.length := by
  have e2 : (l.dropWhile isWordChar).length ≤ l.length :=
    List.IsSuffix.length_le (List.dropWhile_suffix _)
  unfold tryMatch at h
  by_cases hk : (l.takeWhile isWordChar).isEmpty
  · rw [if_pos hk] at h
    exact absurd h (by simp)
  · rw [if_neg hk] at h
    rcases hd : l.dropWhile isWordChar with _ | ⟨c1, r1⟩ <;> rw [hd] at h e2
    · exact absurd h (by simp)
    · rcases r1 with _ | ⟨c2, r2⟩
      · exact absurd h (by simp)
      · dsimp only at h
        by_cases h12 : c1 = '=' && c2 = '"'
        · rw [if_pos h12] at h
          have e1 : (r2.dropWhile isValueChar).length ≤ r2.length :=
            List.IsSuffix.length_le (List.dropWhile_suffix _)
          by_cases hv : (r2.takeWhile isValueChar).isEmpty
          · rw [if_pos hv] at h
            exact absurd h (by simp)
          · rw [if_neg hv] at h
            rcases he : r2.dropWhile isValueChar with _ | ⟨c3, r3⟩ <;> rw [he] at h e1
            · exact absurd h (by simp)
            · dsimp only at h
              by_cases hc3 : c3 = '"'
              · rw [if_pos hc3] at h
                simp only [Option.some.injEq, Prod.mk.injEq] at h
                obtain ⟨-, h2⟩ := h
                subst h2
                simp only [List.length_cons] at e1 e2
                omega
              · rw [if_neg hc3] at h
                exact absurd h (by simp)
        · rw [if_neg h12] at h
          exact absurd h (by simp)

theorem findallKV_cons (f : Nat) (c : Char) (rest : List Char) :
    findallKV (f + 1) (c :: rest) =
      match tryMatch (c :: rest) with
      | some (kv, rest2) => kv :: findallKV f rest2
      | none => findallKV f rest := rfl

theorem findallKV_eq_findAll : ∀ f l, l.length ≤ f → findallKV f l = findAll l := by
  intro f
  induction f using Nat.strong_induction_on with
  | _ f ih =>
    intro l hl
    match f, l with
    | 0, [] => rfl
    | f + 1, [] => rfl
    | f + 1, c :: rest =>
      rw [findallKV_cons]
      show _ = findallKV (rest.length + 1) (c :: rest)
      rw [findallKV_cons]
      simp only [List.length_cons] at hl
      rcases hm : tryMatch (c :: rest) with _ | ⟨kv, rest2⟩
      · dsimp only
        have e1 : findallKV f rest = findAll rest := ih f (Nat.lt_succ_self f) rest (by omega)
        have e2 : findallKV rest.length rest = findAll rest := rfl
        rw [e1, e2]
      · dsimp only
        have hlt := tryMatch_rest_length hm
        simp only [List.length_cons] at hlt
        have e1 : findallKV f rest2 = findAll rest2 :=
          ih f (Nat.lt_succ_self f) rest2 (by omega)
        have e2 : findallKV rest.length rest2 = findAll rest2 :=
          ih rest.length (by omega) rest2 (by omega)
        rw [e1, e2]

theorem findAll_nil : findAll [] = [] := rfl

theorem findAll_cons (c : Char) (rest : List Char) :
    findAll (c :: rest) =
      match tryMatch (c :: rest) with
      | some (kv, rest2) => kv :: findAll rest2
      | none => findAll rest := by
  show findallKV (rest.length + 1) (c :: rest) = _
  rw [findallKV_cons]
  rcases hm : tryMatch (c :: rest) with _ | ⟨kv, rest2⟩
  · rfl
  · have hlt := tryMatch_rest_length hm
    simp only [List.length_cons] at hlt
    exact congrArg (kv :: ·) (findallKV_eq_findAll rest.length rest2 (by omega))

theorem tryMatch_nonword {c : Char} (l : List Char) (hc : isWordChar c = false) :
    tryMatch (c :: l) = none := by
  unfold tryMatch
  rw [List.takeWhile_cons, hc]
  simp

theorem findAll_skip {c : Char} (l : List Char) (hc : tryMatch (c :: l) = none) :
    findAll (c :: l) = findAll l := by
  rw [findAll_cons, hc]

theorem tryMatch_wordrun {w : List Char} {c : Char} (l : List Char) (hw : ∀ a ∈ w, isWordChar a = true)
    (hc : isWordChar c = false) (hne : c ≠ '=') : tryMatch (w ++ c :: l) = none := by
  obtain ⟨htk, hdr⟩ := takeWhile_all_append isWordChar w c l hw hc
  unfold tryMatch
  rw [hdr]
  rcases l with _ | ⟨c2, r2⟩
  · simp
  · have : (decide (c = '=') && decide (c2 = '"')) = false := by
      simp [hne]
    simp only [this, Bool.false_eq_true, if_false]
    simp

theorem findAll_hawk (l : List Char) :
    findAll ('H' :: 'a' :: 'w' :: 'k' :: ' ' :: l) = findAll l := by
  have h1 : tryMatch ('H' :: 'a' :: 'w' :: 'k' :: ' ' :: l) = none :=
    tryMatch_wordrun (w := ['H', 'a', 'w', 'k']) l (by decide) (by decide) (by decide)
  have h2 : tryMatch ('a' :: 'w' :: 'k' :: ' ' :: l) = none :=
    tryMatch_wordrun (w := ['a', 'w', 'k']) l (by decide) (by decide) (by decide)
  have h3 : tryMatch ('w' :: 'k' :: ' ' :: l) = none :=
    tryMatch_wordrun (w := ['w', 'k']) l (by decide) (by decide) (by decide)
  have h4 : tryMatch ('k' :: ' ' :: l) = none :=
    tryMatch_wordrun (w := ['k']) l (by decide) (by decide) (by decide)
  have h5 : tryMatch (' ' :: l) = none := tryMatch_nonword l (by decide)
  rw [findAll_skip _ h1, findAll_skip _ h2, findAll_skip _ h3, findAll_skip _ h4,
    findAll_skip _ h5]

theorem tryMatch_pair {k v : List Char} (rest : List Char) (hk : k ≠ [])
    (hkw : ∀ a ∈ k, isWordChar a = true) (hv : v ≠ []) (hvw : ∀ a ∈ v, isValueChar a = true) :
    tryMatch (k ++ ('=' :: '"' :: (v ++ ('"' :: rest)))) =
      some ((String.mk k, String.mk v), rest) := by
  obtain ⟨htk, hdr⟩ :=
    takeWhile_all_append isWordChar k '=' ('"' :: (v ++ ('"' :: rest))) hkw (by decide)
  obtain ⟨htk2, hdr2⟩ := takeWhile_all_append isValueChar v '"' rest hvw (by decide)
  have hke : k.isEmpty = false := by
    rcases k with _ | _
    · exact absurd rfl hk
    · rfl
  have hve : v.isEmpty = false := by
    rcases v with _ | _
    · exact absurd rfl hv
    · rfl
  simp only [tryMatch, htk, hdr, hke, Bool.false_eq_true, if_false]
  simp only [htk2, hdr2, hve, Bool.false_eq_true, if_false]
  simp

theorem findAll_pair {k v : List Char} (rest : List Char) (hk : k ≠ [])
    (hkw : ∀ a ∈ k, isWordChar a = true) (hv : v ≠ []) (hvw : ∀ a ∈ v, isValueChar a = true) :
    findAll (k ++ ('=' :: '"' :: (v ++ ('"' :: rest)))) =
      (String.mk k, String.mk v) :: findAll rest := by
  have hm := tryMatch_pair rest hk hkw hv hvw
  rcases k with _ | ⟨a, k'⟩
  · exact absurd rfl hk
  · rw [List.cons_append] at hm ⊢
    rw [findAll_cons, hm]

theorem findAll_hdrJoin : ∀ ps : List (String × String), (∀ kv ∈ ps, wfPair kv) →
    findAll (hdrJoin ps) = ps := by
  intro ps
  induction ps with
  | nil => intro _; rfl
  | cons kv rest ih =>
    intro hwf
    obtain ⟨hk, hkw, hv, hvw⟩ := hwf kv (by simp)
    rcases rest with _ | ⟨p2, ps2⟩
    · show findAll (hdrPairChars kv) = [kv]
      unfold hdrPairChars
      have e0 : kv.1.toList ++ '=' :: '"' :: kv.2.toList ++ ['"'] =
          kv.1.toList ++ ('=' :: '"' :: (kv.2.toList ++ ('"' :: []))) := by
        simp
      rw [e0, findAll_pair [] hk hkw hv hvw, findAll_nil]
      simp
    · show findAll (hdrPairChars kv ++ ',' :: ' ' :: hdrJoin (p2 :: ps2)) = _
      unfold hdrPairChars
      have e1 : (kv.1.toList ++ '=' :: '"' :: kv.2.toList ++ ['"']) ++
          ',' :: ' ' :: hdrJoin (p2 :: ps2) =
          kv.1.toList ++
            ('=' :: '"' :: (kv.2.toList ++ ('"' :: (',' :: ' ' :: hdrJoin (p2 :: ps2))))) := by
        simp
      rw [e1, findAll_pair _ hk hkw hv hvw]
      rw [findAll_skip _ (tryMatch_nonword _ (by decide)),
        findAll_skip _ (tryMatch_nonword _ (by decide))]
      rw [ih (fun q hq => hwf q (by simp [hq]))]
      simp

theorem findAll_renderHeader (ps : List (String × String)) (hwf : ∀ kv ∈ ps, wfPair kv) :
    findAll (renderHeader ps).toList = ps := by
  show findAll ('H' :: 'a' :: 'w' :: 'k' :: ' ' :: hdrJoin ps) = ps
  rw [findAll_hawk, findAll_hdrJoin ps hwf]

/-! ### parse_header structure -/

theorem startsWithHawk_iff (l : List Char) : startsWithHawk l = true ↔ "Hawk ".toList <+: l :=
  List.isPrefixOf_iff_prefix

theorem parse_header_wrong_scheme (hdr : String) (hp : ¬ ("Hawk ".toList <+: hdr.toList)) :
    parse_header hdr = .error "Missing Hawk prefix" := by
  have hsw : startsWithHawk hdr.toList = false := by
    rw [Bool.eq_false_iff]
    intro hc
    exact hp ((startsWithHawk_iff hdr.toList).mp hc)
  simp only [parse_header]
  rw [hsw]
  simp

theorem parse_header_missing (hdr : String) (hp : "Hawk ".toList <+: hdr.toList)
    (k : String) (hk : k ∈ (["id", "mac", "ts", "nonce"] : List String))
    (hnone : lastLookup (findAll hdr.toList) k = none) :
    ∃ k' ∈ (["id", "mac", "ts", "nonce"] : List String),
      lastLookup (findAll hdr.toList) k' = none ∧
        parse_header hdr = .error ("Missing header part " ++ k') := by
  have hsw : startsWithHawk hdr.toList = true := (startsWithHawk_iff hdr.toList).mpr hp
  by_cases h1 : lastLookup (findAll hdr.data) "id" = none
  · refine ⟨"id", by simp, h1, ?_⟩
    simp only [parse_header]
    rw [hsw]
    simp [h1]
  · by_cases h2 : lastLookup (findAll hdr.data) "mac" = none
    · refine ⟨"mac", by simp, h2, ?_⟩
      simp only [parse_header]
      rw [hsw]
      simp [h1, h2]
    · by_cases h3 : lastLookup (findAll hdr.data) "ts" = none
      · refine ⟨"ts", by simp, h3, ?_⟩
        simp only [parse_header]
        rw [hsw]
        simp [h1, h2, h3]
      · by_cases h4 : lastLookup (findAll hdr.data) "nonce" = none
        · refine ⟨"nonce", by simp, h4, ?_⟩
          simp only [parse_header]
          rw [hsw]
          simp [h1, h2, h3, h4]
        · exfalso
          simp only [List.mem_cons, List.mem_singleton] at hk
          rcases hk with rfl | rfl | rfl | rfl | h
          · exact h1 hnone
          · exact h2 hnone
          · exact h3 hnone
          · exact h4 hnone
          · exact absurd h (by simp)

/-- Successful shape of `parse_header`: with the prefix present and the
four mandatory parts found, the result is the captured id together with
the decoded (or defaulted) extension data. -/
theorem parse_header_ok (hdr : String) (hp : startsWithHawk hdr.toList = true)
    (idv : String) (hid : lastLookup (findAll hdr.toList) "id" = some idv)
    (hmac : (lastLookup (findAll hdr.toList) "mac").isSome)
    (hts : (lastLookup (findAll hdr.toList) "ts").isSome)
    (hnonce : (lastLookup (findAll hdr.toList) "nonce").isSome) :
    parse_header hdr = .ok (idv,
      match lastLookup (findAll hdr.toList) "ext" with
      | none => Json.obj []
      | some s =>
        match extChain s with
        | none => Json.obj []
        | some j => j) := by
  simp only [parse_header]
  rw [hp]
  have h1 : (lastLookup (findAll hdr.toList) "id").isNone = false := by
    rw [hid]; rfl
  have h2 : (lastLookup (findAll hdr.toList) "mac").isNone = false := by
    rcases hm : lastLookup (findAll hdr.toList) "mac" with _ | v
    · rw [hm] at hmac; exact absurd hmac (by simp)
    · rfl
  have h3 : (lastLookup (findAll hdr.toList) "ts").isNone = false := by
    rcases hm : lastLookup (findAll hdr.toList) "ts" with _ | v
    · rw [hm] at hts; exact absurd hts (by simp)
    · rfl
  have h4 : (lastLookup (findAll hdr.toList) "nonce").isNone = false := by
    rcases hm : lastLookup (findAll hdr.toList) "nonce" with _ | v
    · rw [hm] at hnonce; exact absurd hnonce (by simp)
    · rfl
  simp only [show hdr.data = hdr.toList from rfl]
  simp only [h1, h2, h3, h4, Bool.false_eq_true, if_false, if_true, hid]
  rfl

/-! ### Claim C5 -/

/-- Claim C5: `parse_header` fails with the `Missing Hawk prefix` error for
every input that does not start with `"Hawk "`; and whenever any of the
four mandatory parts `id`, `ts`, `nonce`, `mac` is absent from the scanned
`key="value"` pairs, it fails with a `Missing header part` error naming an
absent mandatory part (the first in the source's check order
`id, mac, ts, nonce`). -/
theorem C5_decode_error_classification :
    (∀ hdr : String, ¬ ("Hawk ".toList <+: hdr.toList) →
      parse_header hdr = .error "Missing Hawk prefix") ∧
    (∀ hdr : String, "Hawk ".toList <+: hdr.toList →
      ∀ k ∈ (["id", "mac", "ts", "nonce"] : List String),
        lastLookup (findAll hdr.toList) k = none →
        ∃ k' ∈ (["id", "mac", "ts", "nonce"] : List String),
          lastLookup (findAll hdr.toList) k' = none ∧
            parse_header hdr = .error ("Missing header part " ++ k')) :=
  ⟨parse_header_wrong_scheme, parse_header_missing⟩

/-- Witness for C5 at concrete inputs: a string without the prefix, and a
prefixed header with no parts at all. -/
theorem C5_decode_error_classification_witness :
    parse_header "nota header" = .error "Missing Hawk prefix" ∧
    ∃ k' ∈ (["id", "mac", "ts", "nonce"] : List String),
      lastLookup (findAll "Hawk garbage".toList) k' = none ∧
        parse_header "Hawk garbage" = .error ("Missing header part " ++ k') :=
  ⟨C5_decode_error_classification.1 "nota header" (by decide),
    C5_decode_error_classification.2 "Hawk garbage" (by decide) "id" (by decide) (by decide)⟩

/-! ### Claim C9 -/

/-- Claim C9: `build_header` always renders `Hawk k="v", ...` with the keys
in the fixed order `id, ts, nonce`, then `ext` exactly when extension data
was supplied, then `mac` last; the `mac` value is the SHA-1 hex digest of
the newline-joined string values of the preceding fields in that order,
with `ext` participating only as the base64 encoding of its sorted-key
JSON serialisation and only when present. -/
theorem C9_encode_wire_format (client_id : String) (ts nonce : Nat) :
    (build_header client_id ts nonce none =
      renderHeader [("id", client_id), ("ts", natStr ts), ("nonce", natStr nonce),
        ("mac", sha1hex (utf8Encode
          (joinNewline [client_id, natStr ts, natStr nonce]).toList))]) ∧
    ∀ e : Json, build_header client_id ts nonce (some e) =
      renderHeader [("id", client_id), ("ts", natStr ts), ("nonce", natStr nonce),
        ("ext", String.mk (b64encode (utf8Encode (dumpsVal (canon e))))),
        ("mac", sha1hex (utf8Encode
          (joinNewline [client_id, natStr ts, natStr nonce,
            String.mk (b64encode (utf8Encode (dumpsVal (canon e))))]).toList))] :=
  ⟨rfl, fun _ => rfl⟩

/-! ### base64 round trip -/

theorem b64CharVal_b64Char (m : Nat) (h : m < 64) : b64CharVal (b64Char m) = some m := by
  interval_cases m <;> rfl

theorem b64Char_ne_pad (m : Nat) (h : m < 64) : b64Char m ≠ '=' := by
  intro hc
  have hv := b64CharVal_b64Char m h
  rw [hc, show b64CharVal '=' = none from rfl] at hv
  exact Option.noConfusion hv

theorem a2bLoop_data {c : Char} {v : Nat} (rest : List Char) (acc qp pads : Nat) (out : List Nat)
    (hc : b64CharVal c = some v) (hq : qp ≠ 3) :
    a2bLoop (c :: rest) acc qp pads out = a2bLoop rest (acc * 64 + v) (qp + 1) 0 out := by
  have hpad : c ≠ '=' := by
    intro h
    rw [h, show b64CharVal '=' = none from rfl] at hc
    exact Option.noConfusion hc
  rw [a2bLoop.eq_def]
  dsimp only
  rw [if_neg hpad, hc]
  simp only [hq, if_false]

theorem a2bLoop_data3 {c : Char} {v : Nat} (rest : List Char) (acc pads : Nat) (out : List Nat)
    (hc : b64CharVal c = some v) :
    a2bLoop (c :: rest) acc 3 pads out =
      a2bLoop rest 0 0 0
        (out ++ [(acc * 64 + v) / 65536, (acc * 64 + v) / 256 % 256, (acc * 64 + v) % 256]) := by
  have hpad : c ≠ '=' := by
    intro h
    rw [h, show b64CharVal '=' = none from rfl] at hc
    exact Option.noConfusion hc
  rw [a2bLoop.eq_def]
  dsimp only
  rw [if_neg hpad, hc]
  simp

theorem a2bLoop_pad_finish (rest : List Char) (acc qp pads : Nat) (out : List Nat)
    (h2 : 2 ≤ qp) (h4 : 4 ≤ qp + pads + 1) :
    a2bLoop ('=' :: rest) acc qp pads out =
      some (out ++ (if qp = 2 then [acc / 16] else [acc / 1024, acc / 4 % 256])) := by
  rw [a2bLoop.eq_def]
  dsimp only
  rw [if_pos rfl, if_pos h2, if_pos h4]

theorem a2bLoop_pad_wait (rest : List Char) (acc qp pads : Nat) (out : List Nat)
    (h2 : 2 ≤ qp) (h4 : ¬ 4 ≤ qp + pads + 1) :
    a2bLoop ('=' :: rest) acc qp pads out = a2bLoop rest acc qp (pads + 1) out := by
  rw [a2bLoop.eq_def]
  dsimp only
  rw [if_pos rfl, if_pos h2, if_neg h4]

theorem a2bLoop_b64encode :
    ∀ bs : List Nat, (∀ b ∈ bs, b < 256) → ∀ out : List Nat,
      a2bLoop (b64encode bs) 0 0 0 out = some (out ++ bs)
  | [], _, out => by simp [b64encode, a2bLoop]
  | [b1], hb, out => by
    have h1 : b1 < 256 := hb b1 (by simp)
    show a2bLoop [b64Char (b1 / 4), b64Char (b1 % 4 * 16), '=', '='] 0 0 0 out = _
    rw [a2bLoop_data _ _ _ _ _ (b64CharVal_b64Char _ (by omega)) (by omega),
      a2bLoop_data _ _ _ _ _ (b64CharVal_b64Char _ (by omega)) (by omega),
      a2bLoop_pad_wait _ _ _ _ _ (by omega) (by omega),
      a2bLoop_pad_finish _ _ _ _ _ (by omega) (by omega)]
    have : ((0 : Nat) * 64 + b1 / 4) * 64 + b1 % 4 * 16 = b1 * 16 := by omega
    rw [this, if_pos rfl]
    have : b1 * 16 / 16 = b1 := by omega
    rw [this]
  | [b1, b2], hb, out => by
    have h1 : b1 < 256 := hb b1 (by simp)
    have h2 : b2 < 256 := hb b2 (by simp)
    show a2bLoop
      [b64Char (b1 / 4), b64Char (b1 % 4 * 16 + b2 / 16), b64Char (b2 % 16 * 4), '='] 0 0 0 out = _
    rw [a2bLoop_data _ _ _ _ _ (b64CharVal_b64Char _ (by omega)) (by omega),
      a2bLoop_data _ _ _ _ _ (b64CharVal_b64Char _ (by omega)) (by omega),
      a2bLoop_data _ _ _ _ _ (b64CharVal_b64Char _ (by omega)) (by omega),
      a2bLoop_pad_finish _ _ _ _ _ (by omega) (by omega)]
    have e1 : (((0 : Nat) * 64 + b1 / 4) * 64 + (b1 % 4 * 16 + b2 / 16)) * 64 + b2 % 16 * 4 =
        b1 * 1024 + b2 * 4 := by omega
    rw [e1, if_neg (by omega)]
    have e2 : (b1 * 1024 + b2 * 4) / 1024 = b1 := by omega
    have e3 : (b1 * 1024 + b2 * 4) / 4 % 256 = b2 := by omega
    rw [e2, e3]
  | b1 :: b2 :: b3 :: rest, hb, out => by
    have h1 : b1 < 256 := hb b1 (by simp)
    have h2 : b2 < 256 := hb b2 (by simp)
    have h3 : b3 < 256 := hb b3 (by simp)
    show a2bLoop (b64Char (b1 / 4) :: b64Char (b1 % 4 * 16 + b2 / 16) ::
      b64Char (b2 % 16 * 4 + b3 / 64) :: b64Char (b3 % 64) :: b64encode rest) 0 0 0 out = _
    rw [a2bLoop_data _ _ _ _ _ (b64CharVal_b64Char _ (by omega)) (by omega),
      a2bLoop_data _ _ _ _ _ (b64CharVal_b64Char _ (by omega)) (by omega),
      a2bLoop_data _ _ _ _ _ (b64CharVal_b64Char _ (by omega)) (by omega),
      a2bLoop_data3 _ _ _ _ (b64CharVal_b64Char _ (by omega))]
    have e0 : ((((0 : Nat) * 64 + b1 / 4) * 64 + (b1 % 4 * 16 + b2 / 16)) * 64 +
        (b2 % 16 * 4 + b3 / 64)) * 64 + b3 % 64 = b1 * 65536 + b2 * 256 + b3 := by omega
    rw [e0]
    have e1 : (b1 * 65536 + b2 * 256 + b3) / 65536 = b1 := by omega
    have e2 : (b1 * 65536 + b2 * 256 + b3) / 256 % 256 = b2 := by omega
    have e3 : (b1 * 65536 + b2 * 256 + b3) % 256 = b3 := by omega
    rw [e1, e2, e3]
    rw [a2bLoop_b64encode rest (fun b hbm => hb b (by simp [hbm])) (out ++ [b1, b2, b3])]
    simp

theorem b64decode_b64encode (bs : List Nat) (hb : ∀ b ∈ bs, b < 256) :
    b64decodeChars (b64encode bs) = some bs := by
  unfold b64decodeChars
  rw [a2bLoop_b64encode bs hb []]
  simp

/-! ### UTF-8 facts -/

theorem utf8EncodeChar_lt (c : Char) : ∀ b ∈ utf8EncodeChar c, b < 256 := by
  have hv : c.toNat < 0xd800 ∨ (0xe000 ≤ c.toNat ∧ c.toNat < 0x110000) := c.valid
  unfold utf8EncodeChar
  intro b hb
  by_cases h1 : c.toNat < 0x80
  · simp only [if_pos h1, List.mem_singleton] at hb
    omega
  · rw [if_neg h1] at hb
    by_cases h2 : c.toNat < 0x800
    · simp only [if_pos h2, List.mem_cons, List.mem_singleton] at hb
      rcases hb with rfl | rfl | h
      · omega
      · omega
      · exact absurd h (by simp)
    · rw [if_neg h2] at hb
      by_cases h3 : c.toNat < 0x10000
      · simp only [if_pos h3, List.mem_cons, List.mem_singleton] at hb
        rcases hb with rfl | rfl | rfl | h
        · omega
        · omega
        · omega
        · exact absurd h (by simp)
      · simp only [if_neg h3, List.mem_cons, List.mem_singleton] at hb
        rcases hb with rfl | rfl | rfl | rfl | h
        · omega
        · omega
        · omega
        · omega
        · exact absurd h (by simp)

theorem utf8Encode_lt : ∀ cs : List Char, ∀ b ∈ utf8Encode cs, b < 256 := by
  intro cs
  induction cs with
  | nil => simp [utf8Encode]
  | cons c cs ih =>
    intro b hb
    unfold utf8Encode at hb
    rcases List.mem_append.mp hb with h | h
    · exact utf8EncodeChar_lt c b h
    · exact ih b h

theorem utf8Encode_length_ge : ∀ cs : List Char, cs.length ≤ (utf8Encode cs).length := by
  intro cs
  induction cs with
  | nil => simp [utf8Encode]
  | cons c cs ih =>
    unfold utf8Encode
    rw [List.length_append]
    have : 1 ≤ (utf8EncodeChar c).length := by
      unfold utf8EncodeChar
      by_cases h1 : c.toNat < 0x80
      · simp [h1]
      · rw [if_neg h1]
        by_cases h2 : c.toNat < 0x800
        · simp [h2]
        · rw [if_neg h2]
          by_cases h3 : c.toNat < 0x10000
          · simp [h3]
          · simp [h3]
    simp only [List.length_cons]
    omega

theorem utf8DecodeAux_ascii :
    ∀ cs : List Char, (∀ c ∈ cs, c.toNat < 128) → ∀ f, cs.length < f →
      utf8DecodeAux f (utf8Encode cs) = some cs := by
  intro cs
  induction cs with
  | nil =>
    intro _ f hf
    match f, hf with
    | f + 1, _ => rfl
  | cons c cs ih =>
    intro ha f hf
    have hc : c.toNat < 128 := ha c (by simp)
    match f, hf with
    | f + 1, hf =>
      show utf8DecodeAux (f + 1) (utf8EncodeChar c ++ utf8Encode cs) = _
      have he : utf8EncodeChar c = [c.toNat] := by
        unfold utf8EncodeChar
        rw [if_pos (by omega)]
      rw [he]
      show utf8DecodeAux (f + 1) (c.toNat :: utf8Encode cs) = _
      simp only [utf8DecodeAux]
      rw [if_pos (by omega : c.toNat < 0x80)]
      rw [ih (fun x hx => ha x (by simp [hx])) f (by simpa using hf)]
      rw [Char.ofNat_toNat]

theorem utf8DecodeStr_ascii (cs : List Char) (ha : ∀ c ∈ cs, c.toNat < 128) :
    utf8DecodeStr (utf8Encode cs) = some (String.mk cs) := by
  unfold utf8DecodeStr
  rw [utf8DecodeAux_ascii cs ha ((utf8Encode cs).length + 1)
    (by have := utf8Encode_length_ge cs; omega)]

/-! ### Decimal printing facts -/

theorem natDigitsAux_all_digit : ∀ f n, ∀ c ∈ natDigitsAux f n, isDigitCh c = true := by
  intro f
  induction f with
  | zero => intro n c hc; exact absurd hc (by simp [natDigitsAux])
  | succ f ih =>
    intro n c hc
    unfold natDigitsAux at hc
    by_cases h : n < 10
    · rw [if_pos h] at hc
      simp only [List.mem_singleton] at hc
      subst hc
      exact isDigitCh_digitChar n
    · rw [if_neg h] at hc
      rcases List.mem_append.mp hc with h1 | h1
      · exact ih (n / 10) c h1
      · simp only [List.mem_singleton] at h1
        subst h1
        exact isDigitCh_digitChar (n % 10)

theorem natChars_all_digit (n : Nat) : ∀ c ∈ natChars n, isDigitCh c = true :=
  natDigitsAux_all_digit (n + 1) n

theorem natDigitsAux_pos_head :
    ∀ f n, 0 < n → n < f → ∃ d ds, natDigitsAux f n = d :: ds ∧ d ≠ '0' ∧ isDigitCh d = true := by
  intro f
  induction f with
  | zero => intro n h1 h2; omega
  | succ f ih =>
    intro n h1 h2
    unfold natDigitsAux
    by_cases h : n < 10
    · rw [if_pos h]
      refine ⟨digitChar n, [], rfl, ?_, isDigitCh_digitChar n⟩
      intro hc
      have e := digitChar_toNat n h
      rw [hc] at e
      have h0 : ('0').toNat = 48 := rfl
      omega
    · rw [if_neg h]
      obtain ⟨d, ds, hds, hd0, hdd⟩ := ih (n / 10) (by omega) (by omega)
      exact ⟨d, ds ++ [digitChar (n % 10)], by rw [hds]; rfl, hd0, hdd⟩

theorem natChars_ne_nil (n : Nat) : natChars n ≠ [] := by
  unfold natChars natDigitsAux
  by_cases h : n < 10
  · rw [if_pos h]; simp
  · rw [if_neg h]; simp

theorem digitsVal_append : ∀ xs ys : List Char, ∀ acc,
    digitsVal (xs ++ ys) acc = digitsVal ys (digitsVal xs acc) := by
  intro xs
  induction xs with
  | nil => intro ys acc; rfl
  | cons x xs ih => intro ys acc; exact ih ys _

theorem digitsVal_natDigitsAux : ∀ f n acc, n < f →
    digitsVal (natDigitsAux f n) acc = acc * 10 ^ (natDigitsAux f n).length + n := by
  intro f
  induction f with
  | zero => intro n acc h; omega
  | succ f ih =>
    intro n acc h
    by_cases h10 : n < 10
    · unfold natDigitsAux
      rw [if_pos h10]
      show digitsVal [digitChar n] acc = acc * 10 ^ ([digitChar n]).length + n
      unfold digitsVal
      rw [digitChar_toNat n h10]
      simp only [List.length_singleton, pow_one]
      unfold digitsVal
      omega
    · unfold natDigitsAux
      rw [if_neg h10]
      rw [digitsVal_append]
      rw [ih (n / 10) acc (by omega)]
      show digitsVal (digitChar (n % 10) :: []) _ = _
      unfold digitsVal
      unfold digitsVal
      rw [digitChar_toNat (n % 10) (by omega)]
      rw [List.length_append, List.length_singleton, pow_add, pow_one]
      have e : (digitChar (n % 10)).toNat = 48 + n % 10 := digitChar_toNat (n % 10) (by omega)
      calc (acc * 10 ^ (natDigitsAux f (n / 10)).length + n / 10) * 10 + (48 + n % 10 - 48)
          = acc * (10 ^ (natDigitsAux f (n / 10)).length * 10) + (n / 10 * 10 + n % 10) := by
            ring_nf
            omega
        _ = acc * (10 ^ (natDigitsAux f (n / 10)).length * 10) + n := by
            congr 1
            omega

theorem digitsVal_natChars (n : Nat) : digitsVal (natChars n) 0 = n := by
  have := digitsVal_natDigitsAux (n + 1) n 0 (by omega)
  simpa using this

/-! ### SHA-1 digest shape -/

theorem beBytes_length : ∀ k n, (beBytes k n).length = k := by
  intro k
  induction k with
  | zero => intro n; rfl
  | succ k ih => intro n; unfold beBytes; rw [List.length_append, ih]; rfl

theorem hexBytes_all_value : ∀ bs : List Nat, ∀ c ∈ hexBytes bs, isValueChar c = true := by
  intro bs
  induction bs with
  | nil => simp [hexBytes]
  | cons b bs ih =>
    intro c hc
    unfold hexBytes at hc
    rcases hc with _ | ⟨_, hi⟩
    · exact isValueChar_hexDigitChar _
    · rcases hi with _ | ⟨_, hj⟩
      · exact isValueChar_hexDigitChar _
      · exact ih c hj

theorem hexBytes_length : ∀ bs : List Nat, (hexBytes bs).length = 2 * bs.length := by
  intro bs
  induction bs with
  | nil => rfl
  | cons b bs ih => unfold hexBytes; simp only [List.length_cons, ih]; omega

theorem sha1Bytes_length (msg : List Nat) : (sha1Bytes msg).length = 20 := by
  unfold sha1Bytes
  simp [beBytes_length]

theorem sha1hex_toList (msg : List Nat) : (sha1hex msg).toList = hexBytes (sha1Bytes msg) := rfl

theorem sha1hex_ne_nil (msg : List Nat) : (sha1hex msg).toList ≠ [] := by
  rw [sha1hex_toList]
  intro hc
  have h1 := hexBytes_length (sha1Bytes msg)
  rw [hc, sha1Bytes_length] at h1
  simp at h1

/-! ### base64 output shape -/

theorem b64Alphabet_value : ∀ c ∈ b64Alphabet, c = '+' ∨ isValueChar c = true := by decide

theorem b64Char_mem (m : Nat) : b64Char m ∈ b64Alphabet := by
  unfold b64Char
  rcases Nat.lt_or_ge m b64Alphabet.length with h | h
  · rw [List.getD_eq_getElem b64Alphabet 'A' h]
    exact List.getElem_mem h
  · rw [List.getD_eq_default b64Alphabet 'A' h]
    decide

theorem b64encode_mem : ∀ bs : List Nat, ∀ c ∈ b64encode bs, c ∈ b64Alphabet ∨ c = '='
  | [], c, hc => absurd hc (by simp [b64encode])
  | [b1], c, hc => by
    unfold b64encode at hc
    rcases hc with _ | ⟨_, _ | ⟨_, _ | ⟨_, _ | ⟨_, h⟩⟩⟩⟩
    · exact .inl (b64Char_mem _)
    · exact .inl (b64Char_mem _)
    · exact .inr rfl
    · exact .inr rfl
    · exact absurd h (List.not_mem_nil c)
  | [b1, b2], c, hc => by
    unfold b64encode at hc
    rcases hc with _ | ⟨_, _ | ⟨_, _ | ⟨_, _ | ⟨_, h⟩⟩⟩⟩
    · exact .inl (b64Char_mem _)
    · exact .inl (b64Char_mem _)
    · exact .inl (b64Char_mem _)
    · exact .inr rfl
    · exact absurd h (List.not_mem_nil c)
  | b1 :: b2 :: b3 :: rest, c, hc => by
    unfold b64encode at hc
    rcases hc with _ | ⟨_, _ | ⟨_, _ | ⟨_, _ | ⟨_, h⟩⟩⟩⟩
    · exact .inl (b64Char_mem _)
    · exact .inl (b64Char_mem _)
    · exact .inl (b64Char_mem _)
    · exact .inl (b64Char_mem _)
    · exact b64encode_mem rest c h

theorem b64encode_value {bs : List Nat} (hplus : '+' ∉ b64encode bs) :
    ∀ c ∈ b64encode bs, isValueChar c = true := by
  intro c hc
  rcases b64encode_mem bs c hc with h | h
  · rcases b64Alphabet_value c h with h1 | h1
    · subst h1
      exact absurd hc hplus
    · exact h1
  · subst h
    rfl

theorem b64encode_ne_nil : ∀ bs : List Nat, bs ≠ [] → b64encode bs ≠ []
  | [], h => absurd rfl h
  | [b1], _ => by simp [b64encode]
  | [b1, b2], _ => by simp [b64encode]
  | b1 :: b2 :: b3 :: rest, _ => by simp [b64encode]

theorem utf8Encode_ne_nil (cs : List Char) (h : cs ≠ []) : utf8Encode cs ≠ [] := by
  intro hc
  have h1 := utf8Encode_length_ge cs
  rw [hc] at h1
  simp only [List.length_nil, Nat.le_zero] at h1
  exact h (List.length_eq_zero.mp h1)

/-! ### Number parse round trip -/

theorem takeWhile_all (p : Char → Bool) : ∀ w : List Char, (∀ a ∈ w, p a = true) →
    w.takeWhile p = w ∧ w.dropWhile p = [] := by
  intro w
  induction w with
  | nil => intro _; exact ⟨rfl, rfl⟩
  | cons a w ih =>
    intro hw
    have ha : p a = true := hw a (by simp)
    have ih' := ih (fun b hb => hw b (by simp [hb]))
    rw [List.takeWhile_cons, List.dropWhile_cons, ha]
    simp only [if_pos rfl, ih'.1, ih'.2]
    exact ⟨rfl, rfl⟩

theorem takeWhile_all_sep (p : Char → Bool) (w rest : List Char) (hw : ∀ a ∈ w, p a = true)
    (hr : rest = [] ∨ ∃ c cs, rest = c :: cs ∧ p c = false) :
    (w ++ rest).takeWhile p = w ∧ (w ++ rest).dropWhile p = rest := by
  rcases hr with rfl | ⟨c, cs, rfl, hc⟩
  · rw [List.append_nil]
    exact takeWhile_all p w hw
  · exact takeWhile_all_append p w c cs hw hc

theorem sepOk_p (rest : List Char) (hsep : sepOk rest) (p : Char → Bool)
    (hp : p ',' = false) (hp2 : p ']' = false) (hp3 : p '}' = false) :
    rest = [] ∨ ∃ c cs, rest = c :: cs ∧ p c = false := by
  rcases hsep with rfl | ⟨c, cs, rfl, hc⟩
  · exact .inl rfl
  · refine .inr ⟨c, cs, rfl, ?_⟩
    rcases hc with rfl | rfl | rfl
    · exact hp
    · exact hp2
    · exact hp3

theorem parseNumTail_zero (sign : Bool) (rest : List Char) (hsep : sepOk rest) :
    parseNumTail sign ('0' :: rest) = some ((0 : Int), rest) := by
  rw [parseNumTail.eq_def]
  dsimp only
  rw [if_pos rfl]
  rcases hsep with rfl | ⟨c, cs, rfl, hc⟩
  · rfl
  · have h2 : (isDigitCh c || decide (c = '.') || decide (c = 'e') || decide (c = 'E')) =
        false := by
      rcases hc with rfl | rfl | rfl <;> rfl
    dsimp only
    rw [h2]
    rfl

theorem parseNumTail_natChars (sign : Bool) (m : Nat) (hm : 0 < m) (rest : List Char)
    (hsep : sepOk rest) :
    parseNumTail sign (natChars m ++ rest) = some (mkSigned sign m, rest) := by
  obtain ⟨d, ds, hds, hd0, hdd⟩ := natDigitsAux_pos_head (m + 1) m hm (by omega)
  have hds2 : natChars m = d :: ds := hds
  have hall : ∀ a ∈ ds, isDigitCh a = true := by
    intro a ha
    apply natChars_all_digit m
    rw [hds2]
    simp [ha]
  obtain ⟨htk, hdr⟩ := takeWhile_all_sep isDigitCh ds rest hall
    (sepOk_p rest hsep isDigitCh rfl rfl rfl)
  have hval : digitsVal (d :: ds) 0 = m := by
    have hv := digitsVal_natChars m
    rw [hds2] at hv
    exact hv
  rw [hds2, List.cons_append, parseNumTail.eq_def]
  dsimp only
  rw [if_neg hd0, if_pos hdd, htk, hdr, hval]
  rcases hsep with rfl | ⟨c, cs, rfl, hc⟩
  · rfl
  · have h2 : (decide (c = '.') || decide (c = 'e') || decide (c = 'E')) = false := by
      rcases hc with rfl | rfl | rfl <;> rfl
    dsimp only
    rw [h2]
    rfl

theorem parseNum_intChars (n : Int) (rest : List Char) (hsep : sepOk rest) :
    parseNum (intChars n ++ rest) = some (n, rest) := by
  rcases n with m | k
  · rcases Nat.eq_zero_or_pos m with rfl | hm
    · show parseNum ('0' :: rest) = some ((0 : Int), rest)
      rw [parseNum.eq_def]
      dsimp only
      rw [if_neg (by decide : ¬('0' : Char) = '-')]
      exact parseNumTail_zero false rest hsep
    · show parseNum (natChars m ++ rest) = some ((m : Int), rest)
      obtain ⟨d, ds, hds, hd0, hdd⟩ := natDigitsAux_pos_head (m + 1) m hm (by omega)
      have hds2 : natChars m = d :: ds := hds
      have hdne : d ≠ '-' := by
        intro hc
        rw [hc] at hdd
        revert hdd
        decide
      rw [hds2, List.cons_append, parseNum.eq_def]
      dsimp only
      rw [if_neg hdne, ← List.cons_append, ← hds2]
      exact parseNumTail_natChars false m hm rest hsep
  · show parseNum ('-' :: (natChars (k + 1) ++ rest)) = some (Int.negSucc k, rest)
    rw [parseNum.eq_def]
    dsimp only
    rw [if_pos rfl, parseNumTail_natChars true (k + 1) (by omega) rest hsep]
    have he : mkSigned true (k + 1) = Int.negSucc k := by
      unfold mkSigned
      rw [if_pos rfl, Int.negSucc_eq]
      push_cast
      ring
    rw [he]

/-! ### String escape round trip -/

theorem char_region (c : Char) : c.toNat < 0xd800 ∨ (0xe000 ≤ c.toNat ∧ c.toNat < 0x110000) := by
  rcases c.valid with h | ⟨h1, h2⟩
  · exact .inl h
  · exact .inr ⟨h1, h2⟩

theorem parseStrAux_u (f : Nat) (acc tail : List Char) (h1 h2 h3 h4 : Char) :
    parseStrAux (f + 1) acc ('\\' :: 'u' :: h1 :: h2 :: h3 :: h4 :: tail) =
      match hexVal h1, hexVal h2, hexVal h3, hexVal h4 with
      | some a, some b, some c1, some d =>
        let n := ((a * 16 + b) * 16 + c1) * 16 + d
        if n < 0xd800 || 0xe000 ≤ n then parseStrAux f (Char.ofNat n :: acc) tail
        else if n < 0xdc00 then
          match tail with
          | '\\' :: 'u' :: g1 :: g2 :: g3 :: g4 :: r3 =>
            match hexVal g1, hexVal g2, hexVal g3, hexVal g4 with
            | some a2, some b2, some c2, some d2 =>
              let m := ((a2 * 16 + b2) * 16 + c2) * 16 + d2
              if 0xdc00 ≤ m && m < 0xe000 then
                parseStrAux f (Char.ofNat (0x10000 + (n - 0xd800) * 1024 + (m - 0xdc00)) :: acc) r3
              else none
            | _, _, _, _ => none
          | _ => none
        else none
      | _, _, _, _ => none := rfl

theorem hex4_parse (f : Nat) (acc tail : List Char) (n : Nat) (hn : n < 0x10000)
    (hreg : n < 0xd800 ∨ 0xe000 ≤ n) :
    parseStrAux (f + 1) acc ('\\' :: 'u' :: (hex4 n ++ tail)) =
      parseStrAux f (Char.ofNat n :: acc) tail := by
  show parseStrAux (f + 1) acc ('\\' :: 'u' :: (hexDigitChar (n / 4096 % 16) ::
    hexDigitChar (n / 256 % 16) :: hexDigitChar (n / 16 % 16) :: hexDigitChar (n % 16) :: tail)) = _
  rw [parseStrAux_u]
  rw [hexDigitChar_hexVal (n / 4096 % 16) (by omega), hexDigitChar_hexVal (n / 256 % 16) (by omega),
    hexDigitChar_hexVal (n / 16 % 16) (by omega), hexDigitChar_hexVal (n % 16) (by omega)]
  dsimp only
  have e : ((n / 4096 % 16 * 16 + n / 256 % 16) * 16 + n / 16 % 16) * 16 + n % 16 = n := by omega
  rw [e]
  have hcond : (decide (n < 0xd800) || decide (0xe000 ≤ n)) = true := by
    rcases hreg with h | h
    · simp [h]
    · simp [h]
  rw [hcond]
  rw [if_pos rfl]

theorem parseStrAux_u2 (f : Nat) (acc tail : List Char) (h1 h2 h3 h4 g1 g2 g3 g4 : Char) :
    parseStrAux (f + 1) acc
      ('\\' :: 'u' :: h1 :: h2 :: h3 :: h4 :: '\\' :: 'u' :: g1 :: g2 :: g3 :: g4 :: tail) =
      match hexVal h1, hexVal h2, hexVal h3, hexVal h4 with
      | some a, some b, some c1, some d =>
        let n := ((a * 16 + b) * 16 + c1) * 16 + d
        if n < 0xd800 || 0xe000 ≤ n then
          parseStrAux f (Char.ofNat n :: acc) ('\\' :: 'u' :: g1 :: g2 :: g3 :: g4 :: tail)
        else if n < 0xdc00 then
          match hexVal g1, hexVal g2, hexVal g3, hexVal g4 with
          | some a2, some b2, some c2, some d2 =>
            let m := ((a2 * 16 + b2) * 16 + c2) * 16 + d2
            if 0xdc00 ≤ m && m < 0xe000 then
              parseStrAux f (Char.ofNat (0x10000 + (n - 0xd800) * 1024 + (m - 0xdc00)) :: acc) tail
            else none
          | _, _, _, _ => none
        else none
      | _, _, _, _ => none := rfl

theorem parseStrAux_esc (c : Char) (f : Nat) (acc tail : List Char) :
    parseStrAux (f + 1) acc (jsonEscSeq c ++ tail) = parseStrAux f (c :: acc) tail := by
  by_cases h1 : c = '"'
  · subst h1; rfl
  · by_cases h2 : c = '\\'
    · subst h2; rfl
    · by_cases h3 : c = '\x08'
      · subst h3; rfl
      · by_cases h4 : c = '\x0c'
        · subst h4; rfl
        · by_cases h5 : c = '\n'
          · subst h5; rfl
          · by_cases h6 : c = '\r'
            · subst h6; rfl
            · by_cases h7 : c = '\t'
              · subst h7; rfl
              · have hseq : jsonEscSeq c =
                    (if c.toNat < 0x20 || 0x7e < c.toNat then
                      if c.toNat < 0x10000 then '\\' :: 'u' :: hex4 c.toNat
                      else
                        '\\' :: 'u' :: hex4 (0xd800 + (c.toNat - 0x10000) / 1024) ++
                          '\\' :: 'u' :: hex4 (0xdc00 + (c.toNat - 0x10000) % 1024)
                    else [c]) := by
                  unfold jsonEscSeq
                  rw [if_neg h1, if_neg h2, if_neg h3, if_neg h4, if_neg h5, if_neg h6, if_neg h7]
                by_cases h8 : c.toNat < 0x20 || 0x7e < c.toNat
                · rw [hseq, if_pos h8]
                  by_cases h9 : c.toNat < 0x10000
                  · rw [if_pos h9, List.cons_append, List.cons_append]
                    rw [hex4_parse f acc tail c.toNat h9 (by
                      rcases char_region c with hr | ⟨hra, _⟩
                      · exact .inl hr
                      · exact .inr hra)]
                    rw [Char.ofNat_toNat]
                  · rw [if_neg h9]
                    have hv := char_region c
                    have hle : c.toNat < 0x110000 := by
                      rcases hv with hr | ⟨_, hr⟩
                      · omega
                      · exact hr
                    set q := (c.toNat - 0x10000) / 1024 with hq_def
                    set r := (c.toNat - 0x10000) % 1024 with hr_def
                    have hq : q < 1024 := by omega
                    have hr : r < 1024 := by omega
                    simp only [hex4, List.append_assoc, List.cons_append, List.nil_append]
                    rw [parseStrAux_u2]
                    rw [hexDigitChar_hexVal _ (by omega), hexDigitChar_hexVal _ (by omega),
                      hexDigitChar_hexVal _ (by omega), hexDigitChar_hexVal _ (by omega),
                      hexDigitChar_hexVal _ (by omega), hexDigitChar_hexVal _ (by omega),
                      hexDigitChar_hexVal _ (by omega), hexDigitChar_hexVal _ (by omega)]
                    dsimp only
                    have e1 : (((0xd800 + q) / 4096 % 16 * 16 + (0xd800 + q) / 256 % 16) * 16 +
                        (0xd800 + q) / 16 % 16) * 16 + (0xd800 + q) % 16 = 0xd800 + q := by omega
                    have e2 : (((0xdc00 + r) / 4096 % 16 * 16 + (0xdc00 + r) / 256 % 16) * 16 +
                        (0xdc00 + r) / 16 % 16) * 16 + (0xdc00 + r) % 16 = 0xdc00 + r := by omega
                    rw [e1, e2]
                    have hc1 : (decide (0xd800 + q < 0xd800) || decide (0xe000 ≤ 0xd800 + q)) =
                        false := by
                      have ha : ¬ (0xd800 + q < 0xd800) := by omega
                      have hb : ¬ (0xe000 ≤ 0xd800 + q) := by omega
                      simp [ha, hb]
                    rw [hc1]
                    rw [if_neg (by simp : ¬ (false = true))]
                    rw [if_pos (by omega : 0xd800 + q < 0xdc00)]
                    have hc2 : (decide (0xdc00 ≤ 0xdc00 + r) && decide (0xdc00 + r < 0xe000)) =
                        true := by
                      have ha : 0xdc00 ≤ 0xdc00 + r := by omega
                      have hb : 0xdc00 + r < 0xe000 := by omega
                      simp [ha, hb]
                    rw [hc2]
                    rw [if_pos rfl]
                    have e3 : 0x10000 + (0xd800 + q - 0xd800) * 1024 + (0xdc00 + r - 0xdc00) =
                        c.toNat := by omega
                    rw [e3, Char.ofNat_toNat]
                · rw [hseq, if_neg h8]
                  show parseStrAux (f + 1) acc (c :: tail) = _
                  rw [parseStrAux.eq_def]
                  dsimp only
                  rw [if_neg h1, if_neg h2, if_neg (by
                    simp only [Bool.or_eq_true, decide_eq_true_eq, not_or] at h8
                    omega : ¬ c.toNat < 0x20)]

theorem parseStrAux_escChars : ∀ cs : List Char, ∀ f acc rest, cs.length < f →
    parseStrAux f acc (escChars cs ++ '"' :: rest) =
      some (String.mk (acc.reverse ++ cs), rest) := by
  intro cs
  induction cs with
  | nil =>
    intro f acc rest hf
    match f, hf with
    | f + 1, _ =>
      show parseStrAux (f + 1) acc ('"' :: rest) = _
      rw [parseStrAux.eq_def]
      dsimp only
      rw [if_pos rfl]
      simp
  | cons c cs ih =>
    intro f acc rest hf
    match f, hf with
    | f + 1, hf =>
      show parseStrAux (f + 1) acc ((jsonEscSeq c ++ escChars cs) ++ '"' :: rest) = _
      rw [List.append_assoc, parseStrAux_esc]
      rw [ih f (c :: acc) rest (by simpa using hf)]
      simp

/-! ### Object well-formedness and dict assembly -/

theorem keysNodup_iff : ∀ ks : List String, keysNodup ks = true ↔ ks.Nodup := by
  intro ks
  induction ks with
  | nil => simp [keysNodup]
  | cons k ks ih =>
    unfold keysNodup
    rw [Bool.and_eq_true, ih]
    constructor
    · rintro ⟨h1, h2⟩
      refine List.nodup_cons.mpr ⟨?_, h2⟩
      intro hc
      rw [Bool.not_eq_eq_eq_not, Bool.not_true] at h1
      rw [← List.elem_iff (a := k)] at hc
      rw [show ks.contains k = List.elem k ks from rfl] at h1
      rw [h1] at hc
      exact Bool.noConfusion hc
    · intro h
      obtain ⟨h1, h2⟩ := List.nodup_cons.mp h
      refine ⟨?_, h2⟩
      rw [Bool.not_eq_eq_eq_not, Bool.not_true]
      rcases hc : ks.contains k with _ | _
      · rfl
      · exact absurd (List.elem_iff.mp hc) h1

theorem jwfList_iff : ∀ xs : List Json, jwfList xs = true ↔ ∀ x ∈ xs, jwf x = true := by
  intro xs
  induction xs with
  | nil => simp [jwfList]
  | cons x xs ih =>
    unfold jwfList
    rw [Bool.and_eq_true, ih]
    constructor
    · rintro ⟨h1, h2⟩ y hy
      rcases List.mem_cons.mp hy with rfl | hy2
      · exact h1
      · exact h2 y hy2
    · intro h
      exact ⟨h x (by simp), fun y hy => h y (by simp [hy])⟩

theorem jwfObj_iff : ∀ kvs : List (String × Json), jwfObj kvs = true ↔ ∀ kv ∈ kvs, jwf kv.2 = true := by
  intro kvs
  induction kvs with
  | nil => simp [jwfObj]
  | cons kv kvs ih =>
    obtain ⟨k, v⟩ := kv
    unfold jwfObj
    rw [Bool.and_eq_true, ih]
    constructor
    · rintro ⟨h1, h2⟩ y hy
      rcases List.mem_cons.mp hy with rfl | hy2
      · exact h1
      · exact h2 y hy2
    · intro h
      exact ⟨h (k, v) (by simp), fun y hy => h y (by simp [hy])⟩

theorem keyInsert_perm (kv : String × Json) : ∀ l, List.Perm (keyInsert kv l) (kv :: l) := by
  intro l
  induction l with
  | nil => rfl
  | cons kv' rest ih =>
    unfold keyInsert
    by_cases h : kv'.1 < kv.1
    · rw [if_pos h]
      exact List.Perm.trans (List.Perm.cons kv' ih) (List.Perm.swap kv kv' rest)
    · rw [if_neg h]

theorem sortPairs_perm : ∀ l, List.Perm (sortPairs l) l := by
  intro l
  induction l with
  | nil => rfl
  | cons kv rest ih =>
    unfold sortPairs
    exact List.Perm.trans (keyInsert_perm kv _) (List.Perm.cons kv ih)

theorem canonObj_keys : ∀ kvs : List (String × Json), (canonObj kvs).map Prod.fst = kvs.map Prod.fst := by
  intro kvs
  induction kvs with
  | nil => rfl
  | cons kv kvs ih =>
    obtain ⟨k, v⟩ := kv
    show List.map Prod.fst ((k, canon v) :: canonObj kvs) = _
    simp only [List.map_cons, ih]

theorem canonObj_mem : ∀ kvs : List (String × Json), ∀ kv ∈ canonObj kvs,
    ∃ v0, (kv.1, v0) ∈ kvs ∧ kv.2 = canon v0 := by
  intro kvs
  induction kvs with
  | nil => intro kv h; exact absurd h (List.not_mem_nil kv)
  | cons p kvs ih =>
    obtain ⟨k, v⟩ := p
    intro kv h
    rcases List.mem_cons.mp h with rfl | h2
    · exact ⟨v, by simp, rfl⟩
    · obtain ⟨v0, hv0, he⟩ := ih kv h2
      exact ⟨v0, by simp [hv0], he⟩

theorem canon_jwf : ∀ v : Json, jwf v = true → jwf (canon v) = true := by
  intro v
  induction v using jsonInd with
  | h1 => intro h; exact h
  | h2 b => intro h; exact h
  | h3 n => intro h; exact h
  | h4 s => intro h; exact h
  | h5 xs ih =>
    intro h
    show jwfList (canonList xs) = true
    have hl : ∀ x ∈ xs, jwf x = true := (jwfList_iff xs).mp h
    rw [jwfList_iff]
    clear h
    induction xs with
    | nil => intro x hx; exact absurd hx (List.not_mem_nil x)
    | cons y ys ihy =>
      intro x hx
      rcases List.mem_cons.mp hx with rfl | h2
      · exact ih y (by simp) (hl y (by simp))
      · exact ihy (fun z hz => ih z (by simp [hz])) (fun z hz => hl z (by simp [hz])) x h2
  | h6 kvs ih =>
    intro h
    show (keysNodup ((sortPairs (canonObj kvs)).map Prod.fst) &&
      jwfObj (sortPairs (canonObj kvs))) = true
    unfold jwf at h
    rw [Bool.and_eq_true] at h ⊢
    obtain ⟨hkeys, hvals⟩ := h
    constructor
    · rw [keysNodup_iff]
      have hperm : List.Perm ((sortPairs (canonObj kvs)).map Prod.fst)
          ((canonObj kvs).map Prod.fst) :=
        (sortPairs_perm (canonObj kvs)).map Prod.fst
      rw [hperm.nodup_iff, canonObj_keys]
      exact (keysNodup_iff _).mp hkeys
    · rw [jwfObj_iff]
      intro kv hkv
      have hmem : kv ∈ canonObj kvs := (sortPairs_perm (canonObj kvs)).mem_iff.mp hkv
      obtain ⟨v0, hv0, he⟩ := canonObj_mem kvs kv hmem
      rw [he]
      exact ih (kv.1, v0) hv0 ((jwfObj_iff kvs).mp hvals (kv.1, v0) hv0)

theorem objInsert_notmem : ∀ (acc : List (String × Json)) (k : String) (v : Json),
    k ∉ acc.map Prod.fst → objInsert acc k v = acc ++ [(k, v)] := by
  intro acc
  induction acc with
  | nil => intro k v _; rfl
  | cons p rest ih =>
    intro k v hk
    obtain ⟨k', v'⟩ := p
    unfold objInsert
    simp only [List.map_cons, List.mem_cons, not_or] at hk
    rw [if_neg (by
      intro hc
      exact hk.1 (by
        have := (beq_iff_eq (a := k') (b := k)).mp hc
        rw [this]))]
    rw [ih k v hk.2]
    rfl

theorem dictAssemble_aux : ∀ (pairs acc : List (String × Json)),
    ((acc ++ pairs).map Prod.fst).Nodup →
    List.foldl (fun acc kv => objInsert acc kv.1 kv.2) acc pairs = acc ++ pairs := by
  intro pairs
  induction pairs with
  | nil => intro acc _; simp
  | cons kv rest ih =>
    intro acc hnd
    obtain ⟨k, v⟩ := kv
    show List.foldl _ (objInsert acc k v) rest = _
    have hknotin : k ∉ acc.map Prod.fst := by
      intro hc
      simp only [List.map_append, List.map_cons] at hnd
      have := List.Nodup.not_mem (List.nodup_middle.mp (by simpa using hnd))
      exact this (by simp [hc])
    rw [objInsert_notmem acc k v hknotin]
    rw [ih (acc ++ [(k, v)]) (by simpa using hnd)]
    simp

theorem dictAssemble_nodup (pairs : List (String × Json))
    (hnd : (pairs.map Prod.fst).Nodup) : dictAssemble pairs = pairs := by
  unfold dictAssemble
  have := dictAssemble_aux pairs [] (by simpa using hnd)
  simpa using this

/-! ### Serialised-value head and length facts -/

theorem isDigitCh_facts (c : Char) (h : isDigitCh c = true) :
    isJsonWs c = false ∧ c ≠ ']' ∧ c ≠ 'n' ∧ c ≠ 't' ∧ c ≠ 'f' ∧ c ≠ '"' ∧ c ≠ '[' ∧ c ≠ '{' ∧
      c ≠ '}' := by
  refine ⟨isDigitCh_not_ws c h, ?_, ?_, ?_, ?_, ?_, ?_, ?_, ?_⟩ <;>
    intro hc <;> subst hc <;> revert h <;> decide

theorem intChars_head (n : Int) : ∃ c cs, intChars n = c :: cs ∧ (isDigitCh c = true ∨ c = '-') := by
  rcases n with m | k
  · rcases hm : natChars m with _ | ⟨d, ds⟩
    · exact absurd hm (natChars_ne_nil m)
    · refine ⟨d, ds, hm, .inl ?_⟩
      apply natChars_all_digit m
      rw [hm]
      simp
  · exact ⟨'-', natChars (k + 1), rfl, .inr rfl⟩

theorem dumpsVal_head (w : Json) : ∃ c cs, dumpsVal w = c :: cs ∧ isJsonWs c = false ∧ c ≠ ']' := by
  rcases w with _ | b | n | s | xs | kvs
  · exact ⟨'n', _, rfl, rfl, by decide⟩
  · rcases b with _ | _
    · exact ⟨'f', _, rfl, rfl, by decide⟩
    · exact ⟨'t', _, rfl, rfl, by decide⟩
  · obtain ⟨c, cs, hcs, hc⟩ := intChars_head n
    refine ⟨c, cs, hcs, ?_, ?_⟩
    · rcases hc with hd | rfl
      · exact isDigitCh_not_ws c hd
      · rfl
    · rcases hc with hd | rfl
      · exact (isDigitCh_facts c hd).2.1
      · decide
  · exact ⟨'"', _, rfl, rfl, by decide⟩
  · rcases xs with _ | ⟨x, xs⟩
    · exact ⟨'[', _, rfl, rfl, by decide⟩
    · exact ⟨'[', _, rfl, rfl, by decide⟩
  · rcases kvs with _ | ⟨kv, kvs⟩
    · exact ⟨'{', _, rfl, rfl, by decide⟩
    · exact ⟨'{', _, rfl, rfl, by decide⟩

theorem dropWhile_ws_dumps (w : Json) (rest : List Char) :
    (dumpsVal w ++ rest).dropWhile isJsonWs = dumpsVal w ++ rest := by
  obtain ⟨c, cs, hcs, hws, _⟩ := dumpsVal_head w
  rw [hcs, List.cons_append, List.dropWhile_cons, hws]
  simp

theorem escChars_length_ge : ∀ cs : List Char, cs.length ≤ (escChars cs).length := by
  intro cs
  induction cs with
  | nil => simp [escChars]
  | cons c cs ih =>
    unfold escChars
    rw [List.length_append]
    have h1 : 1 ≤ (jsonEscSeq c).length := by
      unfold jsonEscSeq
      by_cases h1 : c = '"'
      · simp [h1]
      · rw [if_neg h1]
        by_cases h2 : c = '\\'
        · simp [h2]
        · rw [if_neg h2]
          by_cases h3 : c = '\x08'
          · simp [h3]
          · rw [if_neg h3]
            by_cases h4 : c = '\x0c'
            · simp [h4]
            · rw [if_neg h4]
              by_cases h5 : c = '\n'
              · simp [h5]
              · rw [if_neg h5]
                by_cases h6 : c = '\r'
                · simp [h6]
                · rw [if_neg h6]
                  by_cases h7 : c = '\t'
                  · simp [h7]
                  · rw [if_neg h7]
                    by_cases h8 : c.toNat < 0x20 || 0x7e < c.toNat
                    · rw [if_pos h8]
                      by_cases h9 : c.toNat < 0x10000
                      · simp [h9, hex4]
                      · rw [if_neg h9]
                        simp [hex4]
                    · rw [if_neg h8]
                      simp
    simp only [List.length_cons]
    omega

theorem jw_le_dumps : ∀ w : Json, jw w ≤ (dumpsVal w).length := by
  intro w
  induction w using jsonInd with
  | h1 => simp [jw, dumpsVal]
  | h2 b => rcases b with _ | _ <;> simp [jw, dumpsVal]
  | h3 n =>
    show jw (.int n) ≤ (intChars n).length
    obtain ⟨c, cs, hcs, _⟩ := intChars_head n
    rw [hcs]
    show 1 ≤ (c :: cs).length
    simp
  | h4 s =>
    show jw (.str s) ≤ ('"' :: escChars s.toList ++ ['"']).length
    simp [jw]
  | h5 xs ih =>
    rcases xs with _ | ⟨x, xs⟩
    · simp [jw, jwList, dumpsVal]
    · show 1 + jwList (x :: xs) ≤ ('[' :: (dumpsVal x ++ dumpsArrTail xs) ++ [']']).length
      have haux : ∀ ys : List Json, (∀ y ∈ ys, jw y ≤ (dumpsVal y).length) →
          jwList ys ≤ (dumpsArrTail ys).length := by
        intro ys
        induction ys with
        | nil => intro _; simp [jwList, dumpsArrTail]
        | cons y ys ihy =>
          intro hy
          show 1 + jw y + jwList ys ≤ (',' :: ' ' :: dumpsVal y ++ dumpsArrTail ys).length
          have e1 := hy y (by simp)
          have e2 := ihy (fun z hz => hy z (by simp [hz]))
          simp only [List.cons_append, List.length_cons, List.length_append]
          omega
      have e1 := ih x (by simp)
      have e2 := haux xs (fun z hz => ih z (by simp [hz]))
      show 1 + (1 + jw x + jwList xs) ≤ _
      simp only [List.cons_append, List.length_cons, List.length_append, List.length_singleton]
      omega
  | h6 kvs ih =>
    rcases kvs with _ | ⟨kv, kvs⟩
    · simp [jw, jwObj, dumpsVal]
    · show 1 + jwObj (kv :: kvs) ≤ ('{' :: (dumpsMember kv ++ dumpsObjTail kvs) ++ ['}']).length
      have hmem : ∀ q : String × Json, jw q.2 ≤ (dumpsVal q.2).length →
          1 + jw q.2 ≤ (dumpsMember q).length := by
        intro q hq
        obtain ⟨k, v⟩ := q
        have hq2 : jw v ≤ (dumpsVal v).length := hq
        show 1 + jw v ≤ ('"' :: escChars k.toList ++ '"' :: ':' :: ' ' :: dumpsVal v).length
        simp only [List.cons_append, List.length_cons, List.length_append]
        omega
      have haux : ∀ qs : List (String × Json), (∀ q ∈ qs, jw q.2 ≤ (dumpsVal q.2).length) →
          jwObj qs ≤ (dumpsObjTail qs).length := by
        intro qs
        induction qs with
        | nil => intro _; simp [jwObj, dumpsObjTail]
        | cons q qs ihq =>
          intro hq
          obtain ⟨k, v⟩ := q
          show 1 + jw v + jwObj qs ≤ (',' :: ' ' :: dumpsMember (k, v) ++ dumpsObjTail qs).length
          have e1 : 1 + jw v ≤ (dumpsMember (k, v)).length := hmem (k, v) (hq (k, v) (by simp))
          have e2 := ihq (fun z hz => hq z (by simp [hz]))
          simp only [List.cons_append, List.length_cons, List.length_append]
          omega
      have e1 : 1 + jw kv.2 ≤ (dumpsMember kv).length := hmem kv (ih kv (by simp))
      have e2 := haux kvs (fun z hz => ih z (by simp [hz]))
      show 1 + (1 + jw kv.2 + jwObj kvs) ≤ _
      simp only [List.cons_append, List.length_cons, List.length_append, List.length_singleton]
      omega

/-! ### Serialiser output is ASCII -/

theorem hexDigitChar_ascii (m : Nat) : (hexDigitChar m).toNat < 128 := by
  rcases Nat.lt_or_ge m 16 with h | h
  · interval_cases m <;> decide
  · have he : hexDigitChar m = '0' := by
      unfold hexDigitChar
      apply List.getD_eq_default
      simpa using h
    rw [he]
    decide

theorem hex4_ascii (n : Nat) : ∀ a ∈ hex4 n, a.toNat < 128 := by
  intro a ha
  unfold hex4 at ha
  rcases ha with _ | ⟨_, _ | ⟨_, _ | ⟨_, _ | ⟨_, hz⟩⟩⟩⟩
  · exact hexDigitChar_ascii _
  · exact hexDigitChar_ascii _
  · exact hexDigitChar_ascii _
  · exact hexDigitChar_ascii _
  · exact absurd hz (List.not_mem_nil a)

theorem jsonEscSeq_ascii (c : Char) : ∀ a ∈ jsonEscSeq c, a.toNat < 128 := by
  intro a ha
  unfold jsonEscSeq at ha
  by_cases h1 : c = '"'
  · rw [if_pos h1] at ha
    rcases ha with _ | ⟨_, _ | ⟨_, h⟩⟩
    · decide
    · decide
    · exact absurd h (List.not_mem_nil a)
  · rw [if_neg h1] at ha
    by_cases h2 : c = '\\'
    · rw [if_pos h2] at ha
      rcases ha with _ | ⟨_, _ | ⟨_, h⟩⟩
      · decide
      · decide
      · exact absurd h (List.not_mem_nil a)
    · rw [if_neg h2] at ha
      by_cases h3 : c = '\x08'
      · rw [if_pos h3] at ha
        rcases ha with _ | ⟨_, _ | ⟨_, h⟩⟩
        · decide
        · decide
        · exact absurd h (List.not_mem_nil a)
      · rw [if_neg h3] at ha
        by_cases h4 : c = '\x0c'
        · rw [if_pos h4] at ha
          rcases ha with _ | ⟨_, _ | ⟨_, h⟩⟩
          · decide
          · decide
          · exact absurd h (List.not_mem_nil a)
        · rw [if_neg h4] at ha
          by_cases h5 : c = '\n'
          · rw [if_pos h5] at ha
            rcases ha with _ | ⟨_, _ | ⟨_, h⟩⟩
            · decide
            · decide
            · exact absurd h (List.not_mem_nil a)
          · rw [if_neg h5] at ha
            by_cases h6 : c = '\r'
            · rw [if_pos h6] at ha
              rcases ha with _ | ⟨_, _ | ⟨_, h⟩⟩
              · decide
              · decide
              · exact absurd h (List.not_mem_nil a)
            · rw [if_neg h6] at ha
              by_cases h7 : c = '\t'
              · rw [if_pos h7] at ha
                rcases ha with _ | ⟨_, _ | ⟨_, h⟩⟩
                · decide
                · decide
                · exact absurd h (List.not_mem_nil a)
              · rw [if_neg h7] at ha
                by_cases h8 : c.toNat < 0x20 || 0x7e < c.toNat
                · rw [if_pos h8] at ha
                  by_cases h9 : c.toNat < 0x10000
                  · rw [if_pos h9] at ha
                    rcases ha with _ | ⟨_, _ | ⟨_, hh⟩⟩
                    · decide
                    · decide
                    · exact hex4_ascii _ a hh
                  · rw [if_neg h9] at ha
                    rcases List.mem_append.mp ha with hl | hl
                    · rcases hl with _ | ⟨_, _ | ⟨_, hh⟩⟩
                      · decide
                      · decide
                      · exact hex4_ascii _ a hh
                    · rcases hl with _ | ⟨_, _ | ⟨_, hh⟩⟩
                      · decide
                      · decide
                      · exact hex4_ascii _ a hh
                · rw [if_neg h8] at ha
                  rcases ha with _ | ⟨_, h⟩
                  · simp only [Bool.or_eq_true, decide_eq_true_eq, not_or] at h8
                    omega
                  · exact absurd h (List.not_mem_nil a)

theorem escChars_mem : ∀ cs : List Char, ∀ a ∈ escChars cs, ∃ c ∈ cs, a ∈ jsonEscSeq c := by
  intro cs
  induction cs with
  | nil => intro a ha; exact absurd ha (by simp [escChars])
  | cons c cs ih =>
    intro a ha
    unfold escChars at ha
    rcases List.mem_append.mp ha with h | h
    · exact ⟨c, by simp, h⟩
    · obtain ⟨c2, hc2, ha2⟩ := ih a h
      exact ⟨c2, by simp [hc2], ha2⟩

theorem escChars_ascii (cs : List Char) : ∀ a ∈ escChars cs, a.toNat < 128 := by
  intro a ha
  obtain ⟨c, _, hc⟩ := escChars_mem cs a ha
  exact jsonEscSeq_ascii c a hc

theorem intChars_ascii (n : Int) : ∀ a ∈ intChars n, a.toNat < 128 := by
  intro a ha
  have hdig : isDigitCh a = true → a.toNat < 128 := by
    intro h
    unfold isDigitCh at h
    simp only [Bool.and_eq_true, decide_eq_true_eq] at h
    omega
  rcases n with m | k
  · exact hdig (natChars_all_digit m a ha)
  · rcases ha with _ | ⟨_, hm⟩
    · decide
    · exact hdig (natChars_all_digit (k + 1) a hm)

theorem dumpsVal_ascii : ∀ w : Json, ∀ a ∈ dumpsVal w, a.toNat < 128 := by
  intro w
  induction w using jsonInd with
  | h1 =>
    intro a ha
    rcases ha with _ | ⟨_, _ | ⟨_, _ | ⟨_, _ | ⟨_, h⟩⟩⟩⟩
    · decide
    · decide
    · decide
    · decide
    · exact absurd h (List.not_mem_nil a)
  | h2 b =>
    intro a ha
    rcases b with _ | _ <;> revert ha <;> intro ha
    · rcases ha with _ | ⟨_, _ | ⟨_, _ | ⟨_, _ | ⟨_, _ | ⟨_, h⟩⟩⟩⟩⟩
      · decide
      · decide
      · decide
      · decide
      · decide
      · exact absurd h (List.not_mem_nil a)
    · rcases ha with _ | ⟨_, _ | ⟨_, _ | ⟨_, _ | ⟨_, h⟩⟩⟩⟩
      · decide
      · decide
      · decide
      · decide
      · exact absurd h (List.not_mem_nil a)
  | h3 n => exact intChars_ascii n
  | h4 s =>
    intro a ha
    rcases ha with _ | ⟨_, hm⟩
    · decide
    · rcases List.mem_append.mp hm with h | h
      · exact escChars_ascii s.toList a h
      · rcases h with _ | ⟨_, h2⟩
        · decide
        · exact absurd h2 (List.not_mem_nil a)
  | h5 xs ih =>
    have haux : ∀ ys : List Json, (∀ y ∈ ys, ∀ a ∈ dumpsVal y, a.toNat < 128) →
        ∀ a ∈ dumpsArrTail ys, a.toNat < 128 := by
      intro ys
      induction ys with
      | nil => intro _ a ha; exact absurd ha (by simp [dumpsArrTail])
      | cons y ys ihy =>
        intro hy a ha
        unfold dumpsArrTail at ha
        rcases ha with _ | ⟨_, _ | ⟨_, hm⟩⟩
        · decide
        · decide
        · rcases List.mem_append.mp hm with h | h
          · exact hy y (by simp) a h
          · exact ihy (fun z hz => hy z (by simp [hz])) a h
    intro a ha
    rcases xs with _ | ⟨x, xs⟩
    · rcases ha with _ | ⟨_, _ | ⟨_, h⟩⟩
      · decide
      · decide
      · exact absurd h (List.not_mem_nil a)
    · rcases ha with _ | ⟨_, hm⟩
      · decide
      · rcases List.mem_append.mp hm with h | h
        · rcases List.mem_append.mp h with h2 | h2
          · exact ih x (by simp) a h2
          · exact haux xs (fun z hz => ih z (by simp [hz])) a h2
        · rcases h with _ | ⟨_, h2⟩
          · decide
          · exact absurd h2 (List.not_mem_nil a)
  | h6 kvs ih =>
    have hmem : ∀ q : String × Json, (∀ a ∈ dumpsVal q.2, a.toNat < 128) →
        ∀ a ∈ dumpsMember q, a.toNat < 128 := by
      rintro ⟨k, v⟩ hv a ha
      unfold dumpsMember at ha
      rcases ha with _ | ⟨_, hm⟩
      · decide
      · rcases List.mem_append.mp hm with h | h
        · exact escChars_ascii k.toList a h
        · rcases h with _ | ⟨_, _ | ⟨_, _ | ⟨_, h2⟩⟩⟩
          · decide
          · decide
          · decide
          · exact hv a h2
    have haux : ∀ qs : List (String × Json), (∀ q ∈ qs, ∀ a ∈ dumpsVal q.2, a.toNat < 128) →
        ∀ a ∈ dumpsObjTail qs, a.toNat < 128 := by
      intro qs
      induction qs with
      | nil => intro _ a ha; exact absurd ha (by simp [dumpsObjTail])
      | cons q qs ihq =>
        intro hq a ha
        unfold dumpsObjTail at ha
        rcases ha with _ | ⟨_, _ | ⟨_, hm⟩⟩
        · decide
        · decide
        · rcases List.mem_append.mp hm with h | h
          · exact hmem q (hq q (by simp)) a h
          · exact ihq (fun z hz => hq z (by simp [hz])) a h
    intro a ha
    rcases kvs with _ | ⟨kv, kvs⟩
    · rcases ha with _ | ⟨_, _ | ⟨_, h⟩⟩
      · decide
      · decide
      · exact absurd h (List.not_mem_nil a)
    · rcases ha with _ | ⟨_, hm⟩
      · decide
      · rcases List.mem_append.mp hm with h | h
        · rcases List.mem_append.mp h with h2 | h2
          · exact hmem kv (ih kv (by simp)) a h2
          · exact haux kvs (fun z hz => ih z (by simp [hz])) a h2
        · rcases h with _ | ⟨_, h2⟩
          · decide
          · exact absurd h2 (List.not_mem_nil a)

/-! ### Parser round trip -/

theorem parseVal_null (f : Nat) (r : List Char) :
    parseVal (f + 1) ('n' :: 'u' :: 'l' :: 'l' :: r) = some (.null, r) := rfl

theorem parseVal_true (f : Nat) (r : List Char) :
    parseVal (f + 1) ('t' :: 'r' :: 'u' :: 'e' :: r) = some (.bool true, r) := rfl

theorem parseVal_false (f : Nat) (r : List Char) :
    parseVal (f + 1) ('f' :: 'a' :: 'l' :: 's' :: 'e' :: r) = some (.bool false, r) := rfl

theorem parseVal_str (f : Nat) (r : List Char) :
    parseVal (f + 1) ('"' :: r) =
      match parseStrAux (r.length + 1) [] r with
      | some (s, r2) => some (.str s, r2)
      | none => none := rfl

theorem parseVal_arr (f : Nat) (r : List Char) :
    parseVal (f + 1) ('[' :: r) =
      (match r.dropWhile isJsonWs with
      | [] => none
      | c1 :: r1 =>
        if c1 = ']' then some (.arr [], r1)
        else
          match parseItems f (c1 :: r1) with
          | some (xs, r2) => some (.arr xs, r2)
          | none => none) := rfl

theorem parseVal_obj (f : Nat) (r : List Char) :
    parseVal (f + 1) ('{' :: r) =
      (match r.dropWhile isJsonWs with
      | [] => none
      | c1 :: r1 =>
        if c1 = '}' then some (.obj [], r1)
        else
          match parseMembers f (c1 :: r1) with
          | some (kvs, r2) => some (.obj (dictAssemble kvs), r2)
          | none => none) := rfl

theorem parseVal_notlit (f : Nat) (c : Char) (l : List Char) (h1 : ¬ c = 'n') (h2 : ¬ c = 't')
    (h3 : ¬ c = 'f') (h4 : ¬ c = '"') (h5 : ¬ c = '[') (h6 : ¬ c = '{') :
    parseVal (f + 1) (c :: l) =
      match parseNum (c :: l) with
      | some (n, r2) => some (.int n, r2)
      | none => none := by
  rw [parseVal.eq_def]
  dsimp only
  rw [if_neg h1, if_neg h2, if_neg h3, if_neg h4, if_neg h5, if_neg h6]

theorem parseItems_succ (f : Nat) (l : List Char) :
    parseItems (f + 1) l =
      (match parseVal f l with
      | none => none
      | some (v, r1) =>
        match r1.dropWhile isJsonWs with
        | [] => none
        | c :: r2 =>
          if c = ',' then
            match parseItems f (r2.dropWhile isJsonWs) with
            | some (vs, r3) => some (v :: vs, r3)
            | none => none
          else if c = ']' then some ([v], r2)
          else none) := rfl

theorem parseMembers_quote (f : Nat) (r : List Char) :
    parseMembers (f + 1) ('"' :: r) =
      (match parseStrAux (r.length + 1) [] r with
      | none => none
      | some (k, r1) =>
        match r1.dropWhile isJsonWs with
        | [] => none
        | c0 :: r2 =>
          if c0 = ':' then
            match parseVal f (r2.dropWhile isJsonWs) with
            | none => none
            | some (v, r3) =>
              match r3.dropWhile isJsonWs with
              | [] => none
              | c :: r4 =>
                if c = ',' then
                  match parseMembers f (r4.dropWhile isJsonWs) with
                  | some (kvs, r5) => some ((k, v) :: kvs, r5)
                  | none => none
                else if c = '}' then some ([(k, v)], r4)
                else none
          else none) := rfl

theorem string_mk_toList (s : String) : String.mk s.toList = s := rfl

theorem parseStrAux_dumpsKey (k : String) (tail rest : List Char)
    (he : tail = escChars k.toList ++ '"' :: rest) :
    parseStrAux (tail.length + 1) [] tail = some (k, rest) := by
  subst he
  rw [parseStrAux_escChars k.toList ((escChars k.toList ++ '"' :: rest).length + 1) [] rest (by
    have := escChars_length_ge k.toList
    rw [List.length_append]
    simp only [List.length_cons]
    omega)]
  simp only [List.reverse_nil, List.nil_append]
  rw [string_mk_toList]

theorem sepOk_comma (r2 : List Char) : sepOk (',' :: r2) := .inr ⟨',', r2, rfl, .inl rfl⟩

theorem sepOk_rsqb (r2 : List Char) : sepOk (']' :: r2) := .inr ⟨']', r2, rfl, .inr (.inl rfl)⟩

theorem sepOk_rcb (r2 : List Char) : sepOk ('}' :: r2) := .inr ⟨'}', r2, rfl, .inr (.inr rfl)⟩

theorem dropWhile_ws_rsqb (r : List Char) : (']' :: r).dropWhile isJsonWs = ']' :: r := by
  rw [List.dropWhile_cons, show isJsonWs ']' = false from rfl]
  simp

theorem dropWhile_ws_comma (r : List Char) : (',' :: r).dropWhile isJsonWs = ',' :: r := by
  rw [List.dropWhile_cons, show isJsonWs ',' = false from rfl]
  simp

theorem dropWhile_ws_rcb (r : List Char) : ('}' :: r).dropWhile isJsonWs = '}' :: r := by
  rw [List.dropWhile_cons, show isJsonWs '}' = false from rfl]
  simp

theorem dropWhile_ws_colon (r : List Char) : (':' :: r).dropWhile isJsonWs = ':' :: r := by
  rw [List.dropWhile_cons, show isJsonWs ':' = false from rfl]
  simp

theorem dropWhile_ws_space_dumps (w : Json) (r : List Char) :
    (' ' :: (dumpsVal w ++ r)).dropWhile isJsonWs = dumpsVal w ++ r := by
  rw [List.dropWhile_cons, show isJsonWs ' ' = true from rfl]
  simp only [if_pos rfl]
  exact dropWhile_ws_dumps w r

theorem parseVal_dumps : ∀ w : Json, jwf w = true → ∀ f rest, jw w ≤ f → sepOk rest →
    parseVal f (dumpsVal w ++ rest) = some (w, rest) := by
  intro w
  induction w using jsonInd with
  | h1 =>
    intro _ f rest hf _
    obtain ⟨f', rfl⟩ : ∃ f', f = f' + 1 := ⟨f - 1, by unfold jw at hf; omega⟩
    exact parseVal_null f' rest
  | h2 b =>
    intro _ f rest hf _
    obtain ⟨f', rfl⟩ : ∃ f', f = f' + 1 := ⟨f - 1, by rcases b <;> unfold jw at hf <;> omega⟩
    rcases b with _ | _
    · exact parseVal_false f' rest
    · exact parseVal_true f' rest
  | h3 n =>
    intro _ f rest hf hsep
    obtain ⟨f', rfl⟩ : ∃ f', f = f' + 1 := ⟨f - 1, by unfold jw at hf; omega⟩
    obtain ⟨c, cs, hcs, hc⟩ := intChars_head n
    have hne : ¬ c = 'n' ∧ ¬ c = 't' ∧ ¬ c = 'f' ∧ ¬ c = '"' ∧ ¬ c = '[' ∧ ¬ c = '{' := by
      rcases hc with hd | rfl
      · obtain ⟨-, -, w3, w4, w5, w6, w7, w8, -⟩ := isDigitCh_facts c hd
        exact ⟨w3, w4, w5, w6, w7, w8⟩
      · exact ⟨by decide, by decide, by decide, by decide, by decide, by decide⟩
    show parseVal (f' + 1) (intChars n ++ rest) = _
    rw [hcs, List.cons_append,
      parseVal_notlit f' c (cs ++ rest) hne.1 hne.2.1 hne.2.2.1 hne.2.2.2.1 hne.2.2.2.2.1
        hne.2.2.2.2.2, ← List.cons_append, ← hcs, parseNum_intChars n rest hsep]
  | h4 s =>
    intro _ f rest hf _
    obtain ⟨f', rfl⟩ : ∃ f', f = f' + 1 := ⟨f - 1, by unfold jw at hf; omega⟩
    show parseVal (f' + 1) (('"' :: escChars s.toList ++ ['"']) ++ rest) = _
    have he : ('"' :: escChars s.toList ++ ['"']) ++ rest =
        '"' :: (escChars s.toList ++ '"' :: rest) := by simp
    rw [he, parseVal_str, parseStrAux_dumpsKey s (escChars s.toList ++ '"' :: rest) rest rfl]
  | h5 xs ih =>
    rcases xs with _ | ⟨x, xs⟩
    · intro _ f rest hf _
      obtain ⟨f', rfl⟩ : ∃ f', f = f' + 1 := ⟨f - 1, by unfold jw at hf; omega⟩
      show parseVal (f' + 1) ('[' :: ']' :: rest) = _
      rw [parseVal_arr, dropWhile_ws_rsqb]
      dsimp only
      rw [if_pos rfl]
    · intro hwf f rest hf hsep
      obtain ⟨f', rfl⟩ : ∃ f', f = f' + 1 := ⟨f - 1, by unfold jw at hf; omega⟩
      have hfl : jwList (x :: xs) ≤ f' := by
        unfold jw at hf
        omega
      have hwfl : ∀ y ∈ x :: xs, jwf y = true := (jwfList_iff _).mp hwf
      show parseVal (f' + 1) (('[' :: (dumpsVal x ++ dumpsArrTail xs) ++ [']']) ++ rest) = _
      have he : ('[' :: (dumpsVal x ++ dumpsArrTail xs) ++ [']']) ++ rest =
          '[' :: (dumpsVal x ++ (dumpsArrTail xs ++ (']' :: rest))) := by simp
      rw [he, parseVal_arr, dropWhile_ws_dumps x (dumpsArrTail xs ++ (']' :: rest))]
      obtain ⟨c, cs, hcs, hws, hrb⟩ := dumpsVal_head x
      rw [hcs, List.cons_append]
      dsimp only
      rw [if_neg hrb, ← List.cons_append, ← hcs]
      have hitems : ∀ (ys : List Json) (y : Json) (g : Nat) (r : List Char),
          (∀ z ∈ y :: ys, jwf z = true → ∀ f2 r2, jw z ≤ f2 → sepOk r2 →
            parseVal f2 (dumpsVal z ++ r2) = some (z, r2)) →
          (∀ z ∈ y :: ys, jwf z = true) →
          jwList (y :: ys) ≤ g → sepOk r →
          parseItems g (dumpsVal y ++ (dumpsArrTail ys ++ (']' :: r))) = some (y :: ys, r) := by
        intro ys
        induction ys with
        | nil =>
          intro y g r hP hwfz hg hr
          obtain ⟨g', rfl⟩ : ∃ g', g = g' + 1 := ⟨g - 1, by
            unfold jwList at hg
            omega⟩
          show parseItems (g' + 1) (dumpsVal y ++ (']' :: r)) = _
          rw [parseItems_succ,
            hP y (by simp) (hwfz y (by simp)) g' (']' :: r) (by
              unfold jwList at hg
              unfold jwList at hg
              omega) (sepOk_rsqb r)]
          dsimp only
          rw [dropWhile_ws_rsqb]
          dsimp only
          rw [if_neg (by decide), if_pos rfl]
        | cons z zs ihz =>
          intro y g r hP hwfz hg hr
          obtain ⟨g', rfl⟩ : ∃ g', g = g' + 1 := ⟨g - 1, by
            unfold jwList at hg
            omega⟩
          show parseItems (g' + 1)
            (dumpsVal y ++ (',' :: ' ' :: dumpsVal z ++ dumpsArrTail zs ++ (']' :: r))) = _
          have he2 : (',' :: ' ' :: dumpsVal z ++ dumpsArrTail zs ++ (']' :: r) : List Char) =
              ',' :: ' ' :: (dumpsVal z ++ (dumpsArrTail zs ++ (']' :: r))) := by simp
          rw [he2, parseItems_succ,
            hP y (by simp) (hwfz y (by simp)) g'
              (',' :: ' ' :: (dumpsVal z ++ (dumpsArrTail zs ++ (']' :: r)))) (by
                unfold jwList at hg
                omega) (sepOk_comma _)]
          dsimp only
          rw [dropWhile_ws_comma]
          dsimp only
          rw [if_pos rfl, dropWhile_ws_space_dumps z (dumpsArrTail zs ++ (']' :: r))]
          rw [ihz z g' r (fun q hq => hP q (by simp [List.mem_cons] at hq ⊢; tauto))
            (fun q hq => hwfz q (by simp [List.mem_cons] at hq ⊢; tauto)) (by
              unfold jwList at hg
              omega) hr]
      rw [hitems xs x f' rest (fun z hz => ih z hz) hwfl hfl hsep]
  | h6 kvs ih =>
    rcases kvs with _ | ⟨kv, kvs⟩
    · intro _ f rest hf _
      obtain ⟨f', rfl⟩ : ∃ f', f = f' + 1 := ⟨f - 1, by unfold jw at hf; omega⟩
      show parseVal (f' + 1) ('{' :: '}' :: rest) = _
      rw [parseVal_obj, dropWhile_ws_rcb]
      dsimp only
      rw [if_pos rfl]
    · intro hwf f rest hf hsep
      obtain ⟨f', rfl⟩ : ∃ f', f = f' + 1 := ⟨f - 1, by unfold jw at hf; omega⟩
      have hfo : jwObj (kv :: kvs) ≤ f' := by
        unfold jw at hf
        omega
      have hwfo : jwf (Json.obj (kv :: kvs)) = true := hwf
      have hnd : ((kv :: kvs).map Prod.fst).Nodup := by
        unfold jwf at hwfo
        rw [Bool.and_eq_true] at hwfo
        exact (keysNodup_iff _).mp hwfo.1
      have hwfv : ∀ q ∈ kv :: kvs, jwf q.2 = true := by
        unfold jwf at hwfo
        rw [Bool.and_eq_true] at hwfo
        exact (jwfObj_iff _).mp hwfo.2
      show parseVal (f' + 1) (('{' :: (dumpsMember kv ++ dumpsObjTail kvs) ++ ['}']) ++ rest) = _
      obtain ⟨k, v⟩ := kv
      have he : ('{' :: (dumpsMember (k, v) ++ dumpsObjTail kvs) ++ ['}']) ++ rest =
          '{' :: ('"' :: (escChars k.toList ++
            '"' :: ':' :: ' ' :: (dumpsVal v ++ (dumpsObjTail kvs ++ ('}' :: rest))))) := by
        show ('{' :: (('"' :: escChars k.toList ++ '"' :: ':' :: ' ' :: dumpsVal v) ++
          dumpsObjTail kvs) ++ ['}']) ++ rest = _
        simp
      rw [he, parseVal_obj]
      have hd : ('"' :: (escChars k.toList ++
          '"' :: ':' :: ' ' :: (dumpsVal v ++ (dumpsObjTail kvs ++ ('}' :: rest))))).dropWhile
            isJsonWs =
          '"' :: (escChars k.toList ++
            '"' :: ':' :: ' ' :: (dumpsVal v ++ (dumpsObjTail kvs ++ ('}' :: rest)))) := by
        rw [List.dropWhile_cons, show isJsonWs '"' = false from rfl]
        simp
      rw [hd]
      dsimp only
      rw [if_neg (by decide)]
      have hmembers : ∀ (qs : List (String × Json)) (k0 : String) (v0 : Json) (g : Nat)
          (r : List Char),
          (∀ z ∈ (k0, v0) :: qs, jwf z.2 = true → ∀ f2 r2, jw z.2 ≤ f2 → sepOk r2 →
            parseVal f2 (dumpsVal z.2 ++ r2) = some (z.2, r2)) →
          (∀ z ∈ (k0, v0) :: qs, jwf z.2 = true) →
          jwObj ((k0, v0) :: qs) ≤ g → sepOk r →
          parseMembers g ('"' :: (escChars k0.toList ++
            '"' :: ':' :: ' ' :: (dumpsVal v0 ++ (dumpsObjTail qs ++ ('}' :: r))))) =
            some ((k0, v0) :: qs, r) := by
        intro qs
        induction qs with
        | nil =>
          intro k0 v0 g r hP hwfz hg hr
          obtain ⟨g', rfl⟩ : ∃ g', g = g' + 1 := ⟨g - 1, by
            unfold jwObj at hg
            omega⟩
          show parseMembers (g' + 1) ('"' :: (escChars k0.toList ++
            '"' :: ':' :: ' ' :: (dumpsVal v0 ++ ('}' :: r)))) = _
          rw [parseMembers_quote, parseStrAux_dumpsKey k0
            (escChars k0.toList ++ '"' :: ':' :: ' ' :: (dumpsVal v0 ++ ('}' :: r))) _ rfl]
          dsimp only
          rw [dropWhile_ws_colon]
          dsimp only
          rw [if_pos rfl, dropWhile_ws_space_dumps v0 ('}' :: r)]
          rw [hP (k0, v0) (by simp) (hwfz (k0, v0) (by simp)) g' ('}' :: r) (by
            show jw v0 ≤ g'
            unfold jwObj at hg
            omega) (sepOk_rcb r)]
          dsimp only
          rw [dropWhile_ws_rcb]
          dsimp only
          rw [if_neg (by decide), if_pos rfl]
        | cons q qs2 ihq =>
          intro k0 v0 g r hP hwfz hg hr
          obtain ⟨g', rfl⟩ : ∃ g', g = g' + 1 := ⟨g - 1, by
            unfold jwObj at hg
            omega⟩
          obtain ⟨k1, v1⟩ := q
          have he2 : (dumpsObjTail ((k1, v1) :: qs2) ++ ('}' :: r) : List Char) =
              ',' :: ' ' :: ('"' :: (escChars k1.toList ++
                '"' :: ':' :: ' ' :: (dumpsVal v1 ++ (dumpsObjTail qs2 ++ ('}' :: r))))) := by
            show (',' :: ' ' :: ('"' :: escChars k1.toList ++ '"' :: ':' :: ' ' :: dumpsVal v1) ++
              dumpsObjTail qs2) ++ ('}' :: r) = _
            simp
          rw [he2, parseMembers_quote, parseStrAux_dumpsKey k0
            (escChars k0.toList ++ '"' :: ':' :: ' ' :: (dumpsVal v0 ++
              (',' :: ' ' :: ('"' :: (escChars k1.toList ++
                '"' :: ':' :: ' ' :: (dumpsVal v1 ++ (dumpsObjTail qs2 ++ ('}' :: r)))))))) _ rfl]
          dsimp only
          rw [dropWhile_ws_colon]
          dsimp only
          rw [if_pos rfl, dropWhile_ws_space_dumps v0 _]
          rw [hP (k0, v0) (by simp) (hwfz (k0, v0) (by simp)) g'
            (',' :: ' ' :: ('"' :: (escChars k1.toList ++
              '"' :: ':' :: ' ' :: (dumpsVal v1 ++ (dumpsObjTail qs2 ++ ('}' :: r)))))) (by
                show jw v0 ≤ g'
                unfold jwObj at hg
                omega) (sepOk_comma _)]
          dsimp only
          rw [dropWhile_ws_comma]
          dsimp only
          rw [if_pos rfl]
          have hd2 : (' ' :: ('"' :: (escChars k1.toList ++
              '"' :: ':' :: ' ' :: (dumpsVal v1 ++ (dumpsObjTail qs2 ++ ('}' :: r)))))).dropWhile
                isJsonWs =
              '"' :: (escChars k1.toList ++
                '"' :: ':' :: ' ' :: (dumpsVal v1 ++ (dumpsObjTail qs2 ++ ('}' :: r)))) := by
            rw [List.dropWhile_cons, show isJsonWs ' ' = true from rfl]
            simp only [if_pos rfl]
            rw [List.dropWhile_cons, show isJsonWs '"' = false from rfl]
            simp
          rw [hd2]
          rw [ihq k1 v1 g' r (fun z hz => hP z (by simp [List.mem_cons] at hz ⊢; tauto))
            (fun z hz => hwfz z (by simp [List.mem_cons] at hz ⊢; tauto)) (by
              unfold jwObj at hg
              omega) hr]
      have hm := hmembers kvs k v f' rest (fun z hz => ih z hz) hwfv hfo hsep
      rw [hm]
      dsimp only
      rw [dictAssemble_nodup ((k, v) :: kvs) hnd]

theorem json_loads_dumps (v : Json) (h : jwf v = true) :
    json_loads (dumpsString true v) = some (canon v) := by
  have hlist : (dumpsString true v).toList = dumpsVal (canon v) := rfl
  have hdrop : (dumpsString true v).toList.dropWhile isJsonWs = dumpsVal (canon v) := by
    rw [hlist, ← List.append_nil (dumpsVal (canon v))]
    exact dropWhile_ws_dumps (canon v) []
  unfold json_loads
  rw [hdrop]
  show (match parseVal ((dumpsVal (canon v)).length + 1) (dumpsVal (canon v)) with
    | some (w, rest) => if (List.dropWhile isJsonWs rest).isEmpty = true then some w else none
    | none => none) = some (canon v)
  have hparse : parseVal ((dumpsVal (canon v)).length + 1) (dumpsVal (canon v)) =
      some (canon v, []) := by
    rw [← List.append_nil (dumpsVal (canon v))]
    exact parseVal_dumps (canon v) (canon_jwf v h) _ [] (by
      rw [List.append_nil]
      have := jw_le_dumps (canon v)
      omega) (.inl rfl)
  rw [hparse]
  rfl

/-! ### Header dict lookup helpers -/

theorem lastLookup_cons (k' v : String) (rest : List (String × String)) (k : String) :
    lastLookup ((k', v) :: rest) k =
      match lastLookup rest k with
      | some r => some r
      | none => if k' == k then some v else none := rfl

theorem lastLookup_irrel : ∀ ps : List (String × String), ∀ (qs : List (String × String))
    (k0 v1 v2 k : String), k0 ≠ k →
    lastLookup (ps ++ (k0, v1) :: qs) k = lastLookup (ps ++ (k0, v2) :: qs) k := by
  intro ps
  induction ps with
  | nil =>
    intro qs k0 v1 v2 k hk
    rw [List.nil_append, List.nil_append, lastLookup_cons, lastLookup_cons]
    cases h : lastLookup qs k
    · have hb : (k0 == k) = false := by
        rw [beq_eq_false_iff_ne]
        exact hk
      dsimp only
      rw [hb]
      rfl
    · rfl
  | cons p ps ih =>
    intro qs k0 v1 v2 k hk
    obtain ⟨pk, pv⟩ := p
    rw [List.cons_append, List.cons_append, lastLookup_cons, lastLookup_cons,
      ih qs k0 v1 v2 k hk]

theorem lastLookup_self_isSome : ∀ ps : List (String × String), ∀ (qs : List (String × String))
    (k0 v : String), (lastLookup (ps ++ (k0, v) :: qs) k0).isSome = true := by
  intro ps
  induction ps with
  | nil =>
    intro qs k0 v
    rw [List.nil_append, lastLookup_cons]
    cases h : lastLookup qs k0
    · dsimp only
      rw [beq_self_eq_true]
      rfl
    · rfl
  | cons p ps ih =>
    intro qs k0 v
    obtain ⟨pk, pv⟩ := p
    rw [List.cons_append, lastLookup_cons]
    cases h : lastLookup (ps ++ (k0, v) :: qs) k0
    · have := ih qs k0 v
      rw [h] at this
      exact absurd this (by simp)
    · rfl

theorem isWordChar_isValueChar (c : Char) (h : isWordChar c = true) : isValueChar c = true := by
  unfold isValueChar
  rw [h]
  rfl

theorem isDigitCh_isWordChar (c : Char) (h : isDigitCh c = true) : isWordChar c = true := by
  unfold isDigitCh at h
  unfold isWordChar
  simp only [Bool.and_eq_true, decide_eq_true_eq] at h
  simp only [Bool.or_eq_true, Bool.and_eq_true, decide_eq_true_eq]
  exact Or.inl (Or.inr ⟨by omega, by omega⟩)

/-- The `ext` decode chain inverts the `ext` encoding of `build_header` on
any well-formed extension value. -/
theorem extChain_b64 (v : Json) (hwf : jwf v = true) :
    extChain (String.mk (b64encode (utf8Encode (dumpsVal (canon v))))) = some (canon v) := by
  unfold extChain
  have h1 : b64decodeChars (String.mk (b64encode (utf8Encode (dumpsVal (canon v))))).toList =
      some (utf8Encode (dumpsVal (canon v))) :=
    b64decode_b64encode _ (utf8Encode_lt _)
  rw [h1]
  dsimp only
  have h2 : utf8DecodeStr (utf8Encode (dumpsVal (canon v))) =
      some (String.mk (dumpsVal (canon v))) :=
    utf8DecodeStr_ascii _ (dumpsVal_ascii (canon v))
  rw [h2]
  exact json_loads_dumps v hwf

/-- `parse_header` on a rendered four-part header: the id comes back and
the missing `ext` defaults to the empty mapping. -/
theorem parse_header_render4 (cid tsv nv mv : String)
    (h1 : wfPair ("id", cid)) (h2 : wfPair ("ts", tsv)) (h3 : wfPair ("nonce", nv))
    (h4 : wfPair ("mac", mv)) :
    parse_header (renderHeader [("id", cid), ("ts", tsv), ("nonce", nv), ("mac", mv)]) =
      .ok (cid, Json.obj []) := by
  have hwf : ∀ kv ∈ [("id", cid), ("ts", tsv), ("nonce", nv), ("mac", mv)], wfPair kv := by
    intro kv hkv
    simp only [List.mem_cons, List.not_mem_nil, or_false] at hkv
    rcases hkv with rfl | rfl | rfl | rfl
    · exact h1
    · exact h2
    · exact h3
    · exact h4
  have hfa := findAll_renderHeader _ hwf
  rw [parse_header_ok (renderHeader [("id", cid), ("ts", tsv), ("nonce", nv), ("mac", mv)])
    rfl cid (by rw [hfa]; rfl) (by rw [hfa]; rfl) (by rw [hfa]; rfl)
    (by rw [hfa]; rfl), hfa]
  rfl

/-- `parse_header` on a rendered five-part header: the id comes back and
the extension data is the result of the `ext` decode chain (empty mapping
on chain failure). -/
theorem parse_header_render5 (cid tsv nv ev mv : String)
    (h1 : wfPair ("id", cid)) (h2 : wfPair ("ts", tsv)) (h3 : wfPair ("nonce", nv))
    (h4 : wfPair ("ext", ev)) (h5 : wfPair ("mac", mv)) :
    parse_header (renderHeader [("id", cid), ("ts", tsv), ("nonce", nv), ("ext", ev),
      ("mac", mv)]) =
      .ok (cid, match extChain ev with | none => Json.obj [] | some j => j) := by
  have hwf : ∀ kv ∈ [("id", cid), ("ts", tsv), ("nonce", nv), ("ext", ev), ("mac", mv)],
      wfPair kv := by
    intro kv hkv
    simp only [List.mem_cons, List.not_mem_nil, or_false] at hkv
    rcases hkv with rfl | rfl | rfl | rfl | rfl
    · exact h1
    · exact h2
    · exact h3
    · exact h4
    · exact h5
  have hfa := findAll_renderHeader _ hwf
  rw [parse_header_ok (renderHeader [("id", cid), ("ts", tsv), ("nonce", nv), ("ext", ev),
      ("mac", mv)])
    rfl cid (by rw [hfa]; rfl) (by rw [hfa]; rfl) (by rw [hfa]; rfl)
    (by rw [hfa]; rfl), hfa]
  rfl

theorem wfPair_key (k v : String) (h0 : k.toList ≠ [])
    (hk : ∀ a ∈ k.toList, isWordChar a = true) (h1 : v.toList ≠ [])
    (h2 : ∀ a ∈ v.toList, isValueChar a = true) : wfPair (k, v) :=
  ⟨h0, hk, h1, h2⟩

theorem wfPair_id (cid : String) (h1 : cid.toList ≠ [])
    (h2 : ∀ a ∈ cid.toList, isValueChar a = true) : wfPair ("id", cid) :=
  wfPair_key "id" cid (by decide) (by decide) h1 h2

theorem wfPair_ts (n : Nat) : wfPair ("ts", natStr n) :=
  wfPair_key "ts" (natStr n) (by decide) (by decide) (natChars_ne_nil n)
    (fun a ha => isWordChar_isValueChar a (isDigitCh_isWordChar a (natChars_all_digit n a ha)))

theorem wfPair_nonce (n : Nat) : wfPair ("nonce", natStr n) :=
  wfPair_key "nonce" (natStr n) (by decide) (by decide) (natChars_ne_nil n)
    (fun a ha => isWordChar_isValueChar a (isDigitCh_isWordChar a (natChars_all_digit n a ha)))

theorem wfPair_mac (msg : List Nat) : wfPair ("mac", sha1hex msg) :=
  wfPair_key "mac" (sha1hex msg) (by decide) (by decide) (sha1hex_ne_nil msg) (fun a ha => by
    rw [sha1hex_toList] at ha
    exact hexBytes_all_value _ a ha)

theorem wfPair_ext (e : Json) (hplus : '+' ∉ b64encode (utf8Encode (dumpsVal (canon e)))) :
    wfPair ("ext", String.mk (b64encode (utf8Encode (dumpsVal (canon e))))) := by
  refine wfPair_key "ext" _ (by decide) (by decide) ?_ (fun a ha => b64encode_value hplus a ha)
  show b64encode (utf8Encode (dumpsVal (canon e))) ≠ []
  refine b64encode_ne_nil _ (utf8Encode_ne_nil _ ?_)
  obtain ⟨c, cs, hcs, -, -⟩ := dumpsVal_head (canon e)
  rw [hcs]
  simp

/-! ### Claim C1 -/

/-- Claim C1 (amended): for every credential built from a nonempty client
identifier within the header pattern's value class `[\w=\.\@\-_/]` (the
characters a quoted header value can carry at all) and an optional
well-formed extension mapping whose base64-encoded serialisation contains
no `+` (the one standard-alphabet character that value class rejects),
`decode(encode(C))` returns the same client identifier together with
`canon e`, the key-order normal form of the extension value, so the
extension mapping is preserved up to key order; with no extension data it
returns the empty mapping.  The counterexample shows the `+`-freedom
restriction is necessary: without it the round trip silently loses the
extension mapping. -/
theorem C1_roundtrip (cid : String) (ts nonce : Nat)
    (hcid1 : cid.toList ≠ []) (hcid2 : ∀ a ∈ cid.toList, isValueChar a = true) :
    parse_header (build_header cid ts nonce none) = .ok (cid, Json.obj []) ∧
    ∀ e : Json, jwf e = true → '+' ∉ b64encode (utf8Encode (dumpsVal (canon e))) →
      parse_header (build_header cid ts nonce (some e)) = .ok (cid, canon e) := by
  constructor
  · have hb0 : build_header cid ts nonce none =
        renderHeader [("id", cid), ("ts", natStr ts), ("nonce", natStr nonce),
          ("mac", sha1hex (utf8Encode (joinNewline [cid, natStr ts, natStr nonce]).toList))] :=
      rfl
    rw [hb0, parse_header_render4 cid (natStr ts) (natStr nonce) _
      (wfPair_id cid hcid1 hcid2) (wfPair_ts ts) (wfPair_nonce nonce) (wfPair_mac _)]
  · intro e he hplus
    have hb5 : build_header cid ts nonce (some e) =
        renderHeader [("id", cid), ("ts", natStr ts), ("nonce", natStr nonce),
          ("ext", String.mk (b64encode (utf8Encode (dumpsVal (canon e))))),
          ("mac", sha1hex (utf8Encode (joinNewline [cid, natStr ts, natStr nonce,
            String.mk (b64encode (utf8Encode (dumpsVal (canon e))))]).toList))] :=
      rfl
    rw [hb5, parse_header_render5 cid (natStr ts) (natStr nonce) _ _
      (wfPair_id cid hcid1 hcid2) (wfPair_ts ts) (wfPair_nonce nonce)
      (wfPair_ext e hplus) (wfPair_mac _)]
    rw [extChain_b64 e he]

set_option maxRecDepth 10000 in
/-- Counterexample to the literal claim C1: for the extension mapping
`{"a": ">>"}` the base64 text of the serialised extension data contains
`+`, which the header pattern's value class rejects, so the `ext` pair is
not captured and `parse_header` returns the empty mapping; the two
mappings differ at key `"a"` under any key order. -/
theorem C1_roundtrip_counterexample :
    parse_header (build_header "c1" 1 42 (some (Json.obj [("a", Json.str ">>")]))) =
      .ok ("c1", Json.obj []) ∧
    jsonLookup [] "a" = none ∧
    jsonLookup [("a", Json.str ">>")] "a" = some (Json.str ">>") :=
  ⟨rfl, rfl, rfl⟩

/-- Witness for C1 at a concrete credential: client `a.b` (a value-class
identifier outside `\w+`) with extension mapping `{"scopes": ["read"]}`,
whose base64 text is `+`-free. -/
theorem C1_roundtrip_witness :
    "a.b".toList ≠ [] ∧ (∀ a ∈ "a.b".toList, isValueChar a = true) ∧
    jwf (Json.obj [("scopes", Json.arr [Json.str "read"])]) = true ∧
    '+' ∉ b64encode (utf8Encode (dumpsVal (canon
      (Json.obj [("scopes", Json.arr [Json.str "read"])])))) ∧
    parse_header (build_header "a.b" 1 42
        (some (Json.obj [("scopes", Json.arr [Json.str "read"])]))) =
      .ok ("a.b", canon (Json.obj [("scopes", Json.arr [Json.str "read"])])) :=
  ⟨by decide, by decide, by decide, by decide,
    (C1_roundtrip "a.b" 1 42 (by decide) (by decide)).2
      (Json.obj [("scopes", Json.arr [Json.str "read"])]) (by decide) (by decide)⟩

/-! ### Claim C8 -/

/-- Claim C8: for any two rendered headers identical except for the value
of the `mac` pair (both headers well-formed for the scanning pattern),
`parse_header` returns the same result on both: the mac value never
influences the decode outcome and is never compared with the canonical
digest, so a forged digest succeeds exactly like a genuine one. -/
theorem C8_digest_never_verified (ps qs : List (String × String)) (v1 v2 : String)
    (hwf1 : ∀ kv ∈ ps ++ ("mac", v1) :: qs, wfPair kv)
    (hwf2 : ∀ kv ∈ ps ++ ("mac", v2) :: qs, wfPair kv) :
    parse_header (renderHeader (ps ++ ("mac", v1) :: qs)) =
      parse_header (renderHeader (ps ++ ("mac", v2) :: qs)) := by
  have hfa1 := findAll_renderHeader _ hwf1
  have hfa2 := findAll_renderHeader _ hwf2
  have hid := lastLookup_irrel ps qs "mac" v1 v2 "id" (by decide)
  have hts := lastLookup_irrel ps qs "mac" v1 v2 "ts" (by decide)
  have hnn := lastLookup_irrel ps qs "mac" v1 v2 "nonce" (by decide)
  have hex := lastLookup_irrel ps qs "mac" v1 v2 "ext" (by decide)
  have hm1 : (lastLookup (ps ++ ("mac", v1) :: qs) "mac").isNone = false := by
    cases h : lastLookup (ps ++ ("mac", v1) :: qs) "mac"
    · have hs := lastLookup_self_isSome ps qs "mac" v1
      rw [h] at hs
      exact absurd hs (by simp)
    · rfl
  have hm2 : (lastLookup (ps ++ ("mac", v2) :: qs) "mac").isNone = false := by
    cases h : lastLookup (ps ++ ("mac", v2) :: qs) "mac"
    · have hs := lastLookup_self_isSome ps qs "mac" v2
      rw [h] at hs
      exact absurd hs (by simp)
    · rfl
  have hsw1 : startsWithHawk (renderHeader (ps ++ ("mac", v1) :: qs)).toList = true := by
    rw [startsWithHawk_iff]
    exact ⟨hdrJoin (ps ++ ("mac", v1) :: qs), rfl⟩
  have hsw2 : startsWithHawk (renderHeader (ps ++ ("mac", v2) :: qs)).toList = true := by
    rw [startsWithHawk_iff]
    exact ⟨hdrJoin (ps ++ ("mac", v2) :: qs), rfl⟩
  simp only [parse_header]
  rw [hsw1, hsw2, hfa1, hfa2, hid, hts, hnn, hex, hm1, hm2]

/-- Witness for C8 at concrete headers differing only in the mac value. -/
theorem C8_digest_never_verified_witness :
    (∀ kv ∈ [("id", "c1"), ("ts", "1"), ("nonce", "2")] ++ ("mac", "aa") :: [], wfPair kv) ∧
    (∀ kv ∈ [("id", "c1"), ("ts", "1"), ("nonce", "2")] ++ ("mac", "bb") :: [], wfPair kv) ∧
    parse_header
        (renderHeader ([("id", "c1"), ("ts", "1"), ("nonce", "2")] ++ ("mac", "aa") :: [])) =
      parse_header
        (renderHeader ([("id", "c1"), ("ts", "1"), ("nonce", "2")] ++ ("mac", "bb") :: [])) := by
  have h1 : ∀ kv ∈ [("id", "c1"), ("ts", "1"), ("nonce", "2")] ++ ("mac", "aa") :: [],
      wfPair kv := by
    intro kv hkv
    simp only [List.mem_append, List.mem_cons, List.not_mem_nil, or_false] at hkv
    rcases hkv with (rfl | rfl | rfl) | rfl
    all_goals exact ⟨by decide, by decide, by decide, by decide⟩
  have h2 : ∀ kv ∈ [("id", "c1"), ("ts", "1"), ("nonce", "2")] ++ ("mac", "bb") :: [],
      wfPair kv := by
    intro kv hkv
    simp only [List.mem_append, List.mem_cons, List.not_mem_nil, or_false] at hkv
    rcases hkv with (rfl | rfl | rfl) | rfl
    all_goals exact ⟨by decide, by decide, by decide, by decide⟩
  exact ⟨h1, h2,
    C8_digest_never_verified [("id", "c1"), ("ts", "1"), ("nonce", "2")] [] "aa" "bb" h1 h2⟩

/-! ### Claim C7 -/

/-- Claim C7: for every header that `parse_header` otherwise accepts
(prefix present, the four mandatory parts captured), if the `ext` part is
absent, or present but its base64/JSON decode chain fails, the parse
still succeeds and returns the empty mapping as extension data: decode
errors in `ext` are swallowed, never propagated. -/
theorem C7_ext_resilience (hdr : String) (hp : startsWithHawk hdr.toList = true)
    (idv : String) (hid : lastLookup (findAll hdr.toList) "id" = some idv)
    (hmac : (lastLookup (findAll hdr.toList) "mac").isSome)
    (hts : (lastLookup (findAll hdr.toList) "ts").isSome)
    (hnonce : (lastLookup (findAll hdr.toList) "nonce").isSome)
    (hext : lastLookup (findAll hdr.toList) "ext" = none ∨
      ∃ s, lastLookup (findAll hdr.toList) "ext" = some s ∧ extChain s = none) :
    parse_header hdr = .ok (idv, Json.obj []) := by
  rw [parse_header_ok hdr hp idv hid hmac hts hnonce]
  rcases hext with h | ⟨s, hs, hc⟩
  · rw [h]
  · rw [hs]
    dsimp only
    rw [hc]

/-- Witness for C7 at a concrete header whose `ext` value `A` is invalid
base64 (one leftover data character). -/
theorem C7_ext_resilience_witness :
    startsWithHawk ("Hawk id=\"c1\", ts=\"1\", nonce=\"2\", ext=\"A\", mac=\"m\"").toList = true ∧
    extChain "A" = none ∧
    parse_header "Hawk id=\"c1\", ts=\"1\", nonce=\"2\", ext=\"A\", mac=\"m\"" =
      .ok ("c1", Json.obj []) :=
  ⟨rfl, rfl,
    C7_ext_resilience "Hawk id=\"c1\", ts=\"1\", nonce=\"2\", ext=\"A\", mac=\"m\"" rfl "c1"
      rfl rfl rfl rfl (Or.inr ⟨"A", rfl, rfl⟩)⟩

/-! ### MAC responder reductions -/

theorem taskclusterAttempt_missing (now : PyDateTime) (kvs : List (String × Json))
    (h : jsonLookup kvs "authorization" = none) :
    taskclusterAttempt now (Json.obj kvs) = .error "Missing authorization" := by
  unfold taskclusterAttempt pyContains
  dsimp only
  rw [h]
  rfl

theorem taskclusterAttempt_parse_error (now : PyDateTime) (kvs : List (String × Json))
    (hdr e : String) (h1 : jsonLookup kvs "authorization" = some (Json.str hdr))
    (h2 : parse_header hdr = .error e) :
    taskclusterAttempt now (Json.obj kvs) = .error e := by
  unfold taskclusterAttempt pyContains pyGetItemStr
  dsimp only
  rw [h1]
  dsimp only
  rw [h2]
  rfl

theorem taskclusterAttempt_success (now : PyDateTime) (kvs : List (String × Json))
    (hdr cid : String) (ekvs : List (String × Json))
    (h1 : jsonLookup kvs "authorization" = some (Json.str hdr))
    (h2 : parse_header hdr = .ok (cid, Json.obj ekvs)) :
    taskclusterAttempt now (Json.obj kvs) = .ok
      [("status", Json.str "auth-success"),
       ("scopes", (jsonLookup ekvs "scopes").getD (Json.arr [])),
       ("scheme", Json.str "hawk"), ("clientId", Json.str cid),
       ("expires", Json.str (strftimeYmdHMS (nextDay now)))] := by
  unfold taskclusterAttempt pyContains pyGetItemStr
  dsimp only
  rw [h1]
  dsimp only
  rw [h2]
  rfl

/-! ### Claim C3 -/

/-- Claim C3: for every request whose JSON body is a mapping without the
`authorization` key, the responder returns the failure body with message
`Missing authorization`; for every body whose `authorization` header
fails to decode, it returns the failure body carrying that error text;
and every attempt outcome is emitted as status 200 (success) or 401
(failure) with an `application/json` content type. -/
theorem C3_failure_mapping (now : PyDateTime) :
    (∀ (body : String) (kvs : List (String × Json)),
      json_loads body = some (Json.obj kvs) →
      jsonLookup kvs "authorization" = none →
      mock_auth_taskcluster now body = some (401, [("Content-Type", "application/json")],
        dumpsString false (Json.obj [("status", Json.str "auth-failure"),
          ("message", Json.str "Missing authorization")]))) ∧
    (∀ (body : String) (kvs : List (String × Json)) (hdr e : String),
      json_loads body = some (Json.obj kvs) →
      jsonLookup kvs "authorization" = some (Json.str hdr) →
      parse_header hdr = .error e →
      mock_auth_taskcluster now body = some (401, [("Content-Type", "application/json")],
        dumpsString false (Json.obj [("status", Json.str "auth-failure"),
          ("message", Json.str e)]))) ∧
    (∀ (body : String) (payload : Json) (b : List (String × Json)),
      json_loads body = some payload →
      taskclusterAttempt now payload = .ok b →
      mock_auth_taskcluster now body = some (200, [("Content-Type", "application/json")],
        dumpsString false (Json.obj b))) ∧
    (∀ (body : String) (payload : Json) (e : String),
      json_loads body = some payload →
      taskclusterAttempt now payload = .error e →
      mock_auth_taskcluster now body = some (401, [("Content-Type", "application/json")],
        dumpsString false (Json.obj [("status", Json.str "auth-failure"),
          ("message", Json.str e)]))) := by
  refine ⟨?_, ?_, ?_, ?_⟩
  · intro body kvs hjson hauth
    unfold mock_auth_taskcluster
    rw [hjson]
    dsimp only
    rw [taskclusterAttempt_missing now kvs hauth]
  · intro body kvs hdr e hjson hauth hph
    unfold mock_auth_taskcluster
    rw [hjson]
    dsimp only
    rw [taskclusterAttempt_parse_error now kvs hdr e hauth hph]
  · intro body payload b hjson hatt
    unfold mock_auth_taskcluster
    rw [hjson]
    dsimp only
    rw [hatt]
  · intro body payload e hjson hatt
    unfold mock_auth_taskcluster
    rw [hjson]
    dsimp only
    rw [hatt]

/-- Witness for C3 at a concrete empty-mapping body. -/
theorem C3_failure_mapping_witness :
    json_loads (dumpsString false (Json.obj [])) = some (Json.obj []) ∧
    jsonLookup ([] : List (String × Json)) "authorization" = none ∧
    mock_auth_taskcluster ⟨2017, 3, 7, 10, 14, 51⟩ (dumpsString false (Json.obj [])) =
      some (401, [("Content-Type", "application/json")],
        dumpsString false (Json.obj [("status", Json.str "auth-failure"),
          ("message", Json.str "Missing authorization")])) :=
  ⟨rfl, rfl,
    (C3_failure_mapping ⟨2017, 3, 7, 10, 14, 51⟩).1 (dumpsString false (Json.obj [])) [] rfl rfl⟩

/-! ### Claim C2 -/

/-- Claim C2 (amended): for every intercepted request whose JSON body is a
mapping with an `authorization` string that decodes to a client id and a
mapping as extension data, the responder returns status 200 with the
JSON body whose `status` is `auth-success`, whose `scopes` is the
extension data's `scopes` entry (empty list if absent), whose `scheme` is
`hawk`, whose `clientId` is the decoded id, and whose `expires` field
(the claim's `expiresAt`) is now plus one day formatted as
`YYYY-MM-DDTHH:MM:SS`.  The amendment adds the requirement that the
decoded extension data be a mapping: the counterexample shows a
successfully decoded non-mapping extension value turns the response into
a 401 failure. -/
theorem C2_mac_success (now : PyDateTime) (body : String) (kvs : List (String × Json))
    (hdr cid : String) (ekvs : List (String × Json))
    (hjson : json_loads body = some (Json.obj kvs))
    (hauth : jsonLookup kvs "authorization" = some (Json.str hdr))
    (hph : parse_header hdr = .ok (cid, Json.obj ekvs)) :
    mock_auth_taskcluster now body = some (200, [("Content-Type", "application/json")],
      dumpsString false (Json.obj
        [("status", Json.str "auth-success"),
         ("scopes", (jsonLookup ekvs "scopes").getD (Json.arr [])),
         ("scheme", Json.str "hawk"), ("clientId", Json.str cid),
         ("expires", Json.str (strftimeYmdHMS (nextDay now)))])) := by
  unfold mock_auth_taskcluster
  rw [hjson]
  dsimp only
  rw [taskclusterAttempt_success now kvs hdr cid ekvs hauth hph]

/-- Counterexample to the literal claim C2: the header decodes
successfully (`ext` is the base64 of the JSON number `5`), yet the
responder answers 401, because the decoded extension data is not a
mapping and `.get` fails on it. -/
theorem C2_counterexample :
    parse_header "Hawk id=\"c1\", ts=\"1\", nonce=\"2\", ext=\"NQ==\", mac=\"m\"" =
      .ok ("c1", Json.int 5) ∧
    mock_auth_taskcluster ⟨2017, 3, 7, 10, 14, 51⟩
        (dumpsString false (Json.obj [("authorization",
          Json.str "Hawk id=\"c1\", ts=\"1\", nonce=\"2\", ext=\"NQ==\", mac=\"m\"")])) =
      some (401, [("Content-Type", "application/json")],
        dumpsString false (Json.obj [("status", Json.str "auth-failure"),
          ("message", Json.str "\x27int\x27 object has no attribute \x27get\x27")])) :=
  ⟨rfl, rfl⟩

/-- Witness for C2 at a concrete body whose header carries
`ext = base64 of {"scopes": ["read"]}`, checked across a month and year
rollover of the expiry date. -/
theorem C2_mac_success_witness :
    json_loads (dumpsString false (Json.obj [("authorization", Json.str
        "Hawk id=\"c1\", ts=\"1\", nonce=\"2\", ext=\"eyJzY29wZXMiOiBbInJlYWQiXX0=\", mac=\"m\"")])) =
      some (Json.obj [("authorization", Json.str
        "Hawk id=\"c1\", ts=\"1\", nonce=\"2\", ext=\"eyJzY29wZXMiOiBbInJlYWQiXX0=\", mac=\"m\"")]) ∧
    parse_header "Hawk id=\"c1\", ts=\"1\", nonce=\"2\", ext=\"eyJzY29wZXMiOiBbInJlYWQiXX0=\", mac=\"m\"" =
      .ok ("c1", Json.obj [("scopes", Json.arr [Json.str "read"])]) ∧
    mock_auth_taskcluster ⟨2017, 12, 31, 10, 14, 51⟩
        (dumpsString false (Json.obj [("authorization", Json.str
          "Hawk id=\"c1\", ts=\"1\", nonce=\"2\", ext=\"eyJzY29wZXMiOiBbInJlYWQiXX0=\", mac=\"m\"")])) =
      some (200, [("Content-Type", "application/json")],
        dumpsString false (Json.obj
          [("status", Json.str "auth-success"),
           ("scopes", (jsonLookup [("scopes", Json.arr [Json.str "read"])] "scopes").getD
             (Json.arr [])),
           ("scheme", Json.str "hawk"), ("clientId", Json.str "c1"),
           ("expires", Json.str (strftimeYmdHMS (nextDay ⟨2017, 12, 31, 10, 14, 51⟩)))])) :=
  ⟨rfl, rfl,
    C2_mac_success ⟨2017, 12, 31, 10, 14, 51⟩ _ _ _ _ _ rfl rfl rfl⟩

/-! ### Claim C6 -/

/-- Claim C6 (amended): the responder returns a response exactly when the
request body parses as JSON — every error raised inside the `try` block
(missing authorization, decode errors, attribute errors) is caught and
converted into a failure response, but `json.loads(request.body)` runs
before the `try` block, so a body that is not valid JSON raises out of
the responder and no response is returned.  The counterexample shows such
a crash; the claim's "never crashes" holds only for JSON bodies. -/
theorem C6_responder_totality (now : PyDateTime) (body : String) :
    (mock_auth_taskcluster now body).isSome = (json_loads body).isSome := by
  unfold mock_auth_taskcluster
  cases h : json_loads body with
  | none => rfl
  | some payload =>
    dsimp only
    cases taskclusterAttempt now payload <;> rfl

/-- Counterexample to the literal claim C6: a body that is not valid JSON
produces no response at all — the error escapes the responder. -/
theorem C6_counterexample :
    mock_auth_taskcluster ⟨2017, 3, 7, 10, 14, 51⟩ "not json" = none ∧
    json_loads "not json" = none :=
  ⟨rfl, rfl⟩

/-! ### Query-string lemmas -/

theorem splitChar_cons (sep c : Char) (rest : List Char) :
    splitChar sep (c :: rest) =
      match splitChar sep rest with
      | [] => [[c]]
      | h :: t => if c = sep then [] :: h :: t else (c :: h) :: t := rfl

theorem splitChar_ne_nil (sep : Char) : ∀ l : List Char, splitChar sep l ≠ [] := by
  intro l
  cases l with
  | nil => exact fun h => List.noConfusion h
  | cons c rest =>
    rw [splitChar_cons]
    cases h : splitChar sep rest with
    | nil => exact fun hx => List.noConfusion hx
    | cons hh tt =>
      dsimp only
      by_cases hc : c = sep
      · rw [if_pos hc]
        exact fun hx => List.noConfusion hx
      · rw [if_neg hc]
        exact fun hx => List.noConfusion hx

theorem splitChar_no_sep (sep : Char) : ∀ l : List Char, (∀ c ∈ l, c ≠ sep) →
    splitChar sep l = [l] := by
  intro l
  induction l with
  | nil => intro _; rfl
  | cons c rest ih =>
    intro h
    rw [splitChar_cons, ih (fun x hx => h x (by simp [hx]))]
    dsimp only
    rw [if_neg (h c (by simp))]

theorem splitChar_sep_append (sep : Char) : ∀ l r : List Char, (∀ c ∈ l, c ≠ sep) →
    splitChar sep (l ++ sep :: r) = l :: splitChar sep r := by
  intro l
  induction l with
  | nil =>
    intro r _
    rw [List.nil_append, splitChar_cons]
    cases h : splitChar sep r with
    | nil => exact absurd h (splitChar_ne_nil sep r)
    | cons hh tt =>
      dsimp only
      rw [if_pos rfl]
  | cons c cs ih =>
    intro r h
    rw [List.cons_append, splitChar_cons, ih r (fun x hx => h x (by simp [hx]))]
    dsimp only
    rw [if_neg (h c (by simp))]

theorem queryFold_some : ∀ (ps : List (List Char)) (acc : List (String × String)),
    (∀ p ∈ ps, 2 ≤ (splitChar '=' p).length) → ∃ d, queryFold ps acc = some d := by
  intro ps
  induction ps with
  | nil => intro acc _; exact ⟨acc, rfl⟩
  | cons p rest ih =>
    intro acc h
    have hp := h p (by simp)
    rcases hs : splitChar '=' p with _ | ⟨s0, l1⟩
    · rw [hs] at hp
      simp at hp
    · rcases l1 with _ | ⟨s1, r⟩
      · rw [hs] at hp
        simp at hp
      · have hstep : queryFold (p :: rest) acc =
            queryFold rest (queryInsert acc (String.mk s0) (String.mk s1)) := by
          conv_lhs => rw [queryFold.eq_def]
          dsimp only
          rw [hs]
        rw [hstep]
        exact ih _ (fun x hx => h x (by simp [hx]))

theorem queryFold_none : ∀ (ps : List (List Char)) (acc : List (String × String)),
    (∃ p ∈ ps, (splitChar '=' p).length < 2) → queryFold ps acc = none := by
  intro ps
  induction ps with
  | nil =>
    intro acc h
    rcases h with ⟨p, hp, -⟩
    exact absurd hp (List.not_mem_nil p)
  | cons p rest ih =>
    intro acc h
    rcases hs : splitChar '=' p with _ | ⟨s0, l1⟩
    · unfold queryFold
      rw [hs]
    · rcases l1 with _ | ⟨s1, r⟩
      · unfold queryFold
        rw [hs]
      · have hstep : queryFold (p :: rest) acc =
            queryFold rest (queryInsert acc (String.mk s0) (String.mk s1)) := by
          conv_lhs => rw [queryFold.eq_def]
          dsimp only
          rw [hs]
        rw [hstep]
        rcases h with ⟨x, hx, hlen⟩
        rcases List.mem_cons.mp hx with rfl | hx2
        · rw [hs] at hlen
          simp only [List.length_cons] at hlen
          omega
        · exact ih _ ⟨x, hx2, hlen⟩

/-! ### Claim C4 -/

/-- Claim C4 (amended): for every GET request whose query string has an
`=` in every `&`-separated component, the parse of the query succeeds,
and the responder returns status 200 with the plain-text body
`Unauthorized` when the `access_token` parameter is absent (so the
`badtoken` default applies) or equal to the sentinel `badtoken`, and the
fixed identity record serialised as JSON for any other token value.  The
amendment adds the every-component-has-`=` requirement: the
counterexample shows the responder produces no response at all on the
empty query string. -/
theorem C4_userinfo (q : String)
    (hq : ∀ p ∈ splitChar '&' q.toList, 2 ≤ (splitChar '=' p).length) :
    ∃ d, parseQuery q = some d ∧
      (queryGet d "access_token" "badtoken" = "badtoken" →
        mock_auth_auth0 q = some (200, [("Content-Type", "text/plain")], "Unauthorized")) ∧
      (queryGet d "access_token" "badtoken" ≠ "badtoken" →
        mock_auth_auth0 q = some (200, [("Content-Type", "application/json")],
          dumpsString false AUTH0_DUMMY_USERINFO)) := by
  obtain ⟨d, hd⟩ := queryFold_some (splitChar '&' q.toList) [] hq
  have hpq : parseQuery q = some d := hd
  refine ⟨d, hpq, ?_, ?_⟩
  · intro h
    unfold mock_auth_auth0
    rw [hpq]
    dsimp only
    rw [if_pos (by rw [beq_iff_eq]; exact h)]
  · intro h
    unfold mock_auth_auth0
    rw [hpq]
    dsimp only
    rw [if_neg (fun hc => h (by rw [beq_iff_eq] at hc; exact hc))]

/-- Counterexample to the literal claim C4: on the empty query string the
single empty component has no `=`, the comprehension raises `IndexError`,
and the responder returns nothing at all instead of the documented
`Unauthorized` body. -/
theorem C4_userinfo_counterexample :
    mock_auth_auth0 "" = none ∧ parseQuery "" = none := ⟨rfl, rfl⟩

/-- Witness for C4 at concrete query strings for both token cases. -/
theorem C4_userinfo_witness :
    (∀ p ∈ splitChar '&' "access_token=tok".toList, 2 ≤ (splitChar '=' p).length) ∧
    (∃ d, parseQuery "access_token=tok" = some d ∧
      (queryGet d "access_token" "badtoken" = "badtoken" →
        mock_auth_auth0 "access_token=tok" =
          some (200, [("Content-Type", "text/plain")], "Unauthorized")) ∧
      (queryGet d "access_token" "badtoken" ≠ "badtoken" →
        mock_auth_auth0 "access_token=tok" = some (200, [("Content-Type", "application/json")],
          dumpsString false AUTH0_DUMMY_USERINFO))) :=
  ⟨by decide, C4_userinfo "access_token=tok" (by decide)⟩

/-! ### Claim C10 -/

/-- Claim C10: the userinfo responder returns no response exactly when
some `&`-component of the query string has no `=` — in particular on the
empty query string — and the value stored for a parameter is the segment
strictly between the first and second `=` of its component, not
everything after the first `=`. -/
theorem C10_query_partiality :
    (∀ q : String, mock_auth_auth0 q = none ↔
      ∃ p ∈ splitChar '&' q.toList, (splitChar '=' p).length < 2) ∧
    mock_auth_auth0 "" = none ∧
    (∀ k v1 v2 : List Char,
      (∀ c ∈ k, c ≠ '=' ∧ c ≠ '&') → (∀ c ∈ v1, c ≠ '=' ∧ c ≠ '&') → (∀ c ∈ v2, c ≠ '&') →
      parseQuery (String.mk (k ++ '=' :: (v1 ++ '=' :: v2))) =
        some [(String.mk k, String.mk v1)]) := by
  refine ⟨?_, rfl, ?_⟩
  · intro q
    constructor
    · intro h
      by_contra hn
      push_neg at hn
      obtain ⟨d, hd⟩ := queryFold_some (splitChar '&' q.toList) []
        (fun p hp => by have := hn p hp; omega)
      have hpq : parseQuery q = some d := hd
      unfold mock_auth_auth0 at h
      rw [hpq] at h
      dsimp only at h
      by_cases hb : (queryGet d "access_token" "badtoken" == "badtoken") = true
      · rw [if_pos hb] at h
        exact Option.noConfusion h
      · rw [if_neg hb] at h
        exact Option.noConfusion h
    · intro h
      unfold mock_auth_auth0
      have hpq : parseQuery q = none := queryFold_none _ _ h
      rw [hpq]
  · intro k v1 v2 hk hv1 hv2
    have hns : ∀ c ∈ k ++ '=' :: (v1 ++ '=' :: v2), c ≠ '&' := by
      intro c hc
      rcases List.mem_append.mp hc with h | h
      · exact (hk c h).2
      · rcases List.mem_cons.mp h with rfl | h2
        · decide
        · rcases List.mem_append.mp h2 with h3 | h3
          · exact (hv1 c h3).2
          · rcases List.mem_cons.mp h3 with rfl | h4
            · decide
            · exact hv2 c h4
    show queryFold (splitChar '&' (k ++ '=' :: (v1 ++ '=' :: v2))) [] = _
    rw [splitChar_no_sep '&' _ hns]
    have hsplit : splitChar '=' (k ++ '=' :: (v1 ++ '=' :: v2)) =
        k :: v1 :: splitChar '=' v2 := by
      rw [splitChar_sep_append '=' k (v1 ++ '=' :: v2) (fun c hc => (hk c hc).1),
        splitChar_sep_append '=' v1 v2 (fun c hc => (hv1 c hc).1)]
    unfold queryFold
    rw [hsplit]
    rfl

/-- Witness for C10: a one-component query without `=` yields no
response, and in `k=v1=v2` the stored value is `v1`. -/
theorem C10_query_partiality_witness :
    mock_auth_auth0 "a" = none ∧
    parseQuery (String.mk (['k'] ++ '=' :: (['v'] ++ '=' :: ['w']))) =
      some [(String.mk ['k'], String.mk ['v'])] :=
  ⟨(C10_query_partiality.1 "a").mpr ⟨['a'], by decide, by decide⟩,
    C10_query_partiality.2.2 ['k'] ['v'] ['w'] (by decide) (by decide) (by decide)⟩
